import Mathlib

/-!
Verification of the pik header layer (src/headers.h) and the PNG metadata
adapter (src/codec_png.cc).

The header field lists are embedded from `src/headers.h`.  The generic
field-visitor framework (fields.h), the default constructors (headers.cc)
and the nested `Metadata`/`EpfParams` bundles are not part of the sources,
so those parts are modelled from the specification (its sections 3, 4.1,
4.2 and 6); each such definition carries a doc comment saying so.

Bit streams are modelled as `List Bool`.  Writers return
`Option (List Bool)` (failing exactly where the C++ visitor returns a
failure `Status`); readers consume a prefix of a `List Bool` and return
the decoded value together with the remaining stream.
-/

--------------------------------------------------------------------------------
-- Bit-level primitives (modelled from the spec: the BitReader / BitWriter
-- collaborators of section 2 are external; only their sequential-bit
-- contract is used).

/-- Write `n` bits of `v`, least significant bit first. -/
def writeBits : Nat → Nat → List Bool
  | 0, _ => []
  | n + 1, v => (v % 2 == 1) :: writeBits n (v / 2)

/-- Read `n` bits, least significant bit first. Fails on a truncated stream. -/
def readBits : Nat → List Bool → Option (Nat × List Bool)
  | 0, s => some (0, s)
  | _ + 1, [] => none
  | n + 1, b :: s =>
    match readBits n s with
    | none => none
    | some (x, s1) => some ((if b then 1 else 0) + 2 * x, s1)

theorem writeBits_length (n v : Nat) : (writeBits n v).length = n := by
  induction n generalizing v with
  | zero => rfl
  | succ n ih => simp [writeBits, ih]

theorem readBits_writeBits (n v : Nat) (rest : List Bool) :
    readBits n (writeBits n v ++ rest) = some (v % 2 ^ n, rest) := by
  induction n generalizing v with
  | zero => simp [writeBits, readBits, Nat.mod_one]
  | succ n ih =>
    have hK : 0 < 2 ^ n := by positivity
    have hqK : v / 2 % 2 ^ n < 2 ^ n := Nat.mod_lt _ hK
    have h1 : v = 2 * (v / 2 % 2 ^ n) + v % 2 + 2 ^ (n + 1) * (v / 2 / 2 ^ n) := by
      have hd := Nat.div_add_mod (v / 2) (2 ^ n)
      rw [pow_succ', mul_assoc]
      omega
    have hgoal : v % 2 ^ (n + 1) = 2 * (v / 2 % 2 ^ n) + v % 2 := by
      conv_lhs => rw [h1]
      rw [Nat.add_mul_mod_self_left]
      refine Nat.mod_eq_of_lt ?_
      rw [pow_succ]
      omega
    simp only [writeBits, readBits, List.cons_append, List.append_eq]
    rw [ih (v / 2)]
    have h2 : v % 2 = 0 ∨ v % 2 = 1 := Nat.mod_two_eq_zero_or_one v
    rcases h2 with h | h <;> simp [h, hgoal] <;> omega

/-- Read a single bit as a boolean. -/
def readBool : List Bool → Option (Bool × List Bool)
  | [] => none
  | b :: s => some (b, s)

theorem readBool_cons (b : Bool) (rest : List Bool) :
    readBool (b :: rest) = some (b, rest) := rfl

/-- Skip `n` bits; fails if the stream is shorter (truncated stream). -/
def skipBits (n : Nat) (s : List Bool) : Option (List Bool) :=
  if n ≤ s.length then some (s.drop n) else none

theorem skipBits_append (l rest : List Bool) :
    skipBits l.length (l ++ rest) = some rest := by
  simp [skipBits]

--------------------------------------------------------------------------------
-- U64 coder.  Modelled from the spec (section 4.1): `U64(default, &field)` is a
-- variable-length encoding of an unsigned 64-bit value, lossless up to
-- 2^64 - 1; the concrete scheme (fields.h) is not among the sources, so we use
-- a byte-group varint: 8 value bits, then a continuation bit.

/-- Write a u64 value: groups of 8 bits, each followed by a continuation bit.
Fuel-based so that the definition reduces in the kernel; `v + 1` steps always
suffice because the argument strictly decreases. -/
def writeU64Fuel : Nat → Nat → List Bool
  | 0, _ => []
  | fuel + 1, v =>
    if v / 256 = 0 then writeBits 8 v ++ [false]
    else writeBits 8 (v % 256) ++ true :: writeU64Fuel fuel (v / 256)

def writeU64 (v : Nat) : List Bool := writeU64Fuel (v + 1) v

theorem writeU64Fuel_adequate (fuel1 : Nat) :
    ∀ (fuel2 v : Nat), v < fuel1 → v < fuel2 →
      writeU64Fuel fuel1 v = writeU64Fuel fuel2 v := by
  induction fuel1 with
  | zero => omega
  | succ f ih =>
    intro fuel2 v h1 h2
    match fuel2 with
    | 0 => omega
    | f2 + 1 =>
      simp only [writeU64Fuel]
      by_cases h : v / 256 = 0
      · simp [h]
      · have hv : 0 < v := by omega
        have hlt : v / 256 < v := Nat.div_lt_self hv (by omega)
        simp [h, ih f2 (v / 256) (by omega) (by omega)]

theorem writeU64_eq (v : Nat) :
    writeU64 v = if v / 256 = 0 then writeBits 8 v ++ [false]
                 else writeBits 8 (v % 256) ++ true :: writeU64 (v / 256) := by
  show writeU64Fuel (v + 1) v = _
  simp only [writeU64Fuel]
  by_cases h : v / 256 = 0
  · simp [h]
  · have hv : 0 < v := by omega
    have hlt : v / 256 < v := Nat.div_lt_self hv (by omega)
    simp only [h, if_false]
    rw [writeU64Fuel_adequate v (v / 256 + 1) (v / 256) (by omega) (by omega)]
    rfl

/-- Read a u64 value written by `writeU64`; `fuel` bounds the recursion. -/
def readU64Go : Nat → List Bool → Option (Nat × List Bool)
  | 0, _ => none
  | fuel + 1, s =>
    match readBits 8 s with
    | none => none
    | some (lo, s1) =>
      match s1 with
      | [] => none
      | c :: s2 =>
        if c then
          match readU64Go fuel s2 with
          | none => none
          | some (hi, s3) => some (lo + 256 * hi, s3)
        else some (lo, s2)

def readU64 (s : List Bool) : Option (Nat × List Bool) := readU64Go s.length s

theorem writeU64_length_pos (v : Nat) : 0 < (writeU64 v).length := by
  rw [writeU64_eq]
  split <;> simp

theorem readU64Go_writeU64 (v fuel : Nat) (rest : List Bool)
    (hfuel : (writeU64 v).length ≤ fuel) :
    readU64Go fuel (writeU64 v ++ rest) = some (v, rest) := by
  induction fuel generalizing v rest with
  | zero =>
    exfalso
    have := writeU64_length_pos v
    omega
  | succ fuel ih =>
    have h256 : (2 : Nat) ^ 8 = 256 := by norm_num
    by_cases h : v / 256 = 0
    · rw [writeU64_eq, if_pos h]
      have hv : v < 256 := by omega
      have hm : v % 2 ^ 8 = v := by rw [h256]; omega
      simp only [List.append_assoc, List.cons_append, List.nil_append]
      simp only [readU64Go, readBits_writeBits]
      simp [hm]
      omega
    · rw [writeU64_eq, if_neg h]
      have hlen : (writeU64 (v / 256)).length ≤ fuel := by
        rw [writeU64_eq, if_neg h] at hfuel
        simp only [List.length_append, writeBits_length, List.length_cons,
          List.length_nil] at hfuel
        omega
      have hm : v % 256 % 2 ^ 8 = v % 256 := by rw [h256]; omega
      simp only [List.append_assoc, List.cons_append, List.nil_append,
        List.singleton_append]
      simp only [readU64Go, readBits_writeBits]
      rw [ih (v / 256) rest hlen]
      simp [hm]
      omega

/-- Stream-extension monotonicity: a successful `readU64Go` keeps working with
any larger fuel. -/
theorem readU64_writeU64 (v : Nat) (rest : List Bool) :
    readU64 (writeU64 v ++ rest) = some (v, rest) := by
  unfold readU64
  exact readU64Go_writeU64 v _ rest (by simp)

--------------------------------------------------------------------------------
-- U32 coder.  Modelled from the spec (section 4.2): a per-field table of up to
-- 4 alternatives, each a zero-bit literal or a fixed width plus additive
-- offset; the encoder picks the cheapest lossless alternative and writes a
-- 2-bit selector, then the value bits.  `raw n` models the `kU32RawBits + n`
-- distributions of headers.h (value stored raw in n bits, no selector).
-- The exact packing of a table into its u32 descriptor is an open question in
-- the spec (section 9); the concrete tables below unpack each descriptor byte
-- b as: b < 0x80 ↦ stored-in-b-bits (offset 0), else literal (b - 0x80).

inductive U32Alt where
  | lit (v : Nat)
  | stored (width offset : Nat)
deriving DecidableEq

/-- Bits needed by the value part of an alternative (selector excluded). -/
def altBitCost : U32Alt → Nat
  | .lit _ => 0
  | .stored w _ => w

/-- Whether an alternative can losslessly represent `v`. -/
def altCanRep (a : U32Alt) (v : Nat) : Bool :=
  match a with
  | .lit x => v == x
  | .stored w o => decide (o ≤ v) && decide (v - o < 2 ^ w)

inductive U32Distr where
  | raw (n : Nat)
  | table (alts : List U32Alt)
deriving DecidableEq

/-- Pick the cheapest representable alternative, earliest on ties; `i` is the
index of the first entry of `alts` within the full table. -/
def pickAltFrom (i : Nat) (alts : List U32Alt) (v : Nat) : Option (Nat × U32Alt) :=
  match alts with
  | [] => none
  | a :: rest =>
    let r := pickAltFrom (i + 1) rest v
    if altCanRep a v then
      match r with
      | none => some (i, a)
      | some (j, b) => if altBitCost b < altBitCost a then some (j, b) else some (i, a)
    else r

def pickAlt (alts : List U32Alt) (v : Nat) : Option (Nat × U32Alt) :=
  pickAltFrom 0 alts v

/-- Encode-direction `U32(distribution, default, &field)` (the default only
matters for initialization, not for coding). -/
def writeU32 (d : U32Distr) (v : Nat) : Option (List Bool) :=
  match d with
  | .raw n => if v < 2 ^ n then some (writeBits n v) else none
  | .table alts =>
    match pickAlt alts v with
    | none => none
    | some (i, a) =>
      some (writeBits 2 i ++
        (match a with
         | .lit _ => []
         | .stored w o => writeBits w (v - o)))

/-- Decode-direction `U32`: 2-bit selector, then the value bits of the selected
alternative; the value is `offset + storedBits`. -/
def readU32 (d : U32Distr) (s : List Bool) : Option (Nat × List Bool) :=
  match d with
  | .raw n => readBits n s
  | .table alts =>
    match readBits 2 s with
    | none => none
    | some (i, s1) =>
      match alts.get? i with
      | none => none
      | some (.lit x) => some (x, s1)
      | some (.stored w o) =>
        match readBits w s1 with
        | none => none
        | some (x, s2) => some (o + x, s2)

theorem pickAltFrom_sound (alts : List U32Alt) (v i j : Nat) (b : U32Alt)
    (h : pickAltFrom i alts v = some (j, b)) :
    i ≤ j ∧ j - i < alts.length ∧ alts.get? (j - i) = some b ∧ altCanRep b v = true := by
  induction alts generalizing i j b with
  | nil => simp [pickAltFrom] at h
  | cons a rest ih =>
    simp only [pickAltFrom] at h
    by_cases hc : altCanRep a v
    · simp only [hc, if_true] at h
      rcases hr : pickAltFrom (i + 1) rest v with _ | ⟨j1, b1⟩
      · rw [hr] at h
        simp at h
        obtain ⟨h1, h2⟩ := h
        subst h1; subst h2
        simp [hc]
      · rw [hr] at h
        obtain ⟨hle, hlt, hget, hrep⟩ := ih (i + 1) j1 b1 hr
        by_cases hcost : altBitCost b1 < altBitCost a
        · simp only [hcost, if_true] at h
          simp at h
          obtain ⟨h1, h2⟩ := h
          rw [← h1, ← h2]
          refine ⟨by omega, by simp; omega, ?_, hrep⟩
          have hj : j1 - i = (j1 - (i + 1)) + 1 := by omega
          rw [hj]
          simpa using hget
        · simp only [hcost, if_false] at h
          simp at h
          obtain ⟨h1, h2⟩ := h
          subst h1; subst h2
          simp [hc]
    · simp only [hc, if_false] at h
      obtain ⟨hle, hlt, hget, hrep⟩ := ih (i + 1) j b h
      refine ⟨by omega, by simp; omega, ?_, hrep⟩
      have hj : j - i = (j - (i + 1)) + 1 := by omega
      rw [hj]
      simpa using hget

theorem readU32_writeU32 (d : U32Distr) (v : Nat) (bs rest : List Bool)
    (hlen : match d with | .raw _ => True | .table alts => alts.length ≤ 4)
    (hw : writeU32 d v = some bs) :
    readU32 d (bs ++ rest) = some (v, rest) := by
  match d with
  | .raw n =>
    simp only [writeU32] at hw
    by_cases hv : v < 2 ^ n
    · rw [if_pos hv] at hw
      obtain rfl : writeBits n v = bs := Option.some.injEq .. ▸ hw
      simp [readU32, readBits_writeBits, Nat.mod_eq_of_lt hv]
    · rw [if_neg hv] at hw
      exact absurd hw (by simp)
  | .table alts =>
    simp only [writeU32] at hw
    rcases hp : pickAlt alts v with _ | ⟨i, a⟩
    · rw [hp] at hw
      exact absurd hw (by simp)
    · rw [hp] at hw
      obtain ⟨-, hlt, hget, hrep⟩ := pickAltFrom_sound alts v 0 i a hp
      simp only [Nat.sub_zero] at hlt hget
      have hi : i < 2 ^ 2 := by
        simp only at hlen
        omega
      obtain rfl : _ = bs := Option.some.injEq .. ▸ hw
      simp only [readU32, List.append_assoc, readBits_writeBits, Nat.mod_eq_of_lt hi, hget]
      match a with
      | .lit x =>
        simp only [altCanRep, beq_iff_eq] at hrep
        simp [hrep]
      | .stored w o =>
        simp only [altCanRep, Bool.and_eq_true, decide_eq_true_eq] at hrep
        obtain ⟨ho, hlt2⟩ := hrep
        simp [readBits_writeBits, Nat.mod_eq_of_lt hlt2]
        omega

--------------------------------------------------------------------------------
-- Bytes coder.  Modelled from the spec (section 4.1): `Bytes(kRaw, &field)`
-- emits a length-prefixed raw byte blob.  Bytes are 8-bit; the length prefix
-- uses the variable-length u64 coder.

def writeByteSeq : List Nat → List Bool
  | [] => []
  | b :: bs => writeBits 8 b ++ writeByteSeq bs

def readByteSeq : Nat → List Bool → Option (List Nat × List Bool)
  | 0, s => some ([], s)
  | n + 1, s =>
    match readBits 8 s with
    | none => none
    | some (b, s1) =>
      match readByteSeq n s1 with
      | none => none
      | some (bs, s2) => some (b :: bs, s2)

/-- `Bytes(BytesEncoding::kRaw, &field)`, write direction.  The u8 range
condition is the C++ `uint8_t` element type made explicit. -/
def writeBytes (bs : List Nat) : Option (List Bool) :=
  if bs.all (· < 256) then some (writeU64 bs.length ++ writeByteSeq bs) else none

def readBytes (s : List Bool) : Option (List Nat × List Bool) :=
  match readU64 s with
  | none => none
  | some (n, s1) => readByteSeq n s1

theorem readByteSeq_writeByteSeq (bs : List Nat) (rest : List Bool)
    (hb : bs.all (· < 256) = true) :
    readByteSeq bs.length (writeByteSeq bs ++ rest) = some (bs, rest) := by
  induction bs with
  | nil => simp [writeByteSeq, readByteSeq]
  | cons b tl ih =>
    simp only [List.all_cons, Bool.and_eq_true, decide_eq_true_eq] at hb
    obtain ⟨hb1, hb2⟩ := hb
    have h256 : (2 : Nat) ^ 8 = 256 := by norm_num
    simp only [writeByteSeq, readByteSeq, List.length_cons, List.append_assoc,
      readBits_writeBits]
    rw [ih hb2]
    have hm : b % 2 ^ 8 = b := by rw [h256]; omega
    simp [hm]
    omega

theorem readBytes_writeBytes (bs : List Nat) (bits rest : List Bool)
    (hw : writeBytes bs = some bits) :
    readBytes (bits ++ rest) = some (bs, rest) := by
  simp only [writeBytes] at hw
  by_cases hb : bs.all (· < 256)
  · rw [if_pos hb] at hw
    obtain rfl : _ = bits := Option.some.injEq .. ▸ hw
    simp only [readBytes, List.append_assoc, readU64_writeU64]
    exact readByteSeq_writeByteSeq bs rest hb
  · rw [if_neg hb] at hw
    exact absurd hw (by simp)

--------------------------------------------------------------------------------
-- Enum coder.  Spec section 4.1: same mechanics as U32, but the decoded
-- integer is validated against the enum's declared value set; invalid values
-- are a decode failure.

def readEnum (d : U32Distr) (valid : Nat → Bool) (s : List Bool) :
    Option (Nat × List Bool) :=
  match readU32 d s with
  | none => none
  | some (v, s1) => if valid v then some (v, s1) else none

theorem readEnum_writeU32 (d : U32Distr) (valid : Nat → Bool) (v : Nat)
    (bs rest : List Bool)
    (hlen : match d with | .raw _ => True | .table alts => alts.length ≤ 4)
    (hv : valid v = true) (hw : writeU32 d v = some bs) :
    readEnum d valid (bs ++ rest) = some (v, rest) := by
  simp [readEnum, readU32_writeU32 d v bs rest hlen hw, hv]

--------------------------------------------------------------------------------
-- Extension region.  Modelled from the spec (sections 4.1 and 6): the
-- `extensions` u64 field is written first; when it is nonzero the encoder
-- writes the extension payload bit count as a compressed u32 and then the
-- payload, and the decoder reads the count and skips exactly
-- `declared - consumed` bits, failing when the fields it recognized consumed
-- more than the declared count.  This repository defines no extension fields,
-- so the encoder's payload is empty and the decoder's consumed count is 0.

/-- Distribution for the extension bit count (modelled from the spec; the
concrete table lives in the missing fields.h). -/
def kExtensionBitsDistr : U32Distr :=
  .table [.lit 0, .stored 8 0, .stored 16 0, .stored 32 0]

/-- `BeginExtensions` + `EndExtensions`, write direction, for a header with no
extension fields: the `extensions` u64, then a zero payload bit count when
`extensions != 0`. -/
def writeExtensions (ext : Nat) : Option (List Bool) :=
  match (if ext == 0 then some [] else writeU32 kExtensionBitsDistr 0) with
  | none => none
  | some tail => some (writeU64 ext ++ tail)

/-- `EndExtensions`, read direction: skip the unconsumed remainder of the
declared extension payload; a reader that consumed more than declared fails. -/
def endExtensionsRead (declared consumed : Nat) (s : List Bool) :
    Option (List Bool) :=
  if declared < consumed then none else skipBits (declared - consumed) s

/-- `BeginExtensions` + `EndExtensions`, read direction, for a reader that
recognizes no extension fields (consumed = 0). -/
def readExtensions (s : List Bool) : Option (Nat × List Bool) :=
  match readU64 s with
  | none => none
  | some (ext, s1) =>
    if ext == 0 then some (ext, s1)
    else
      match readU32 kExtensionBitsDistr s1 with
      | none => none
      | some (k, s2) =>
        match endExtensionsRead k 0 s2 with
        | none => none
        | some s3 => some (ext, s3)

theorem readExtensions_writeExtensions (ext : Nat) (bits rest : List Bool)
    (hw : writeExtensions ext = some bits) :
    readExtensions (bits ++ rest) = some (ext, rest) := by
  simp only [writeExtensions] at hw
  by_cases h0 : ext = 0
  · subst h0
    simp only [beq_self_eq_true, if_true] at hw
    obtain rfl : _ = bits := Option.some.injEq .. ▸ hw
    simp [readExtensions, readU64_writeU64]
  · have hbeq : (ext == 0) = false := by simp [h0]
    rw [hbeq] at hw
    simp only [Bool.false_eq_true, if_false] at hw
    rcases hz : writeU32 kExtensionBitsDistr 0 with _ | zbits
    · rw [hz] at hw; exact absurd hw (by simp)
    · rw [hz] at hw
      obtain rfl : _ = bits := Option.some.injEq .. ▸ hw
      simp only [readExtensions, List.append_assoc, readU64_writeU64, hbeq,
        Bool.false_eq_true, if_false]
      rw [readU32_writeU32 kExtensionBitsDistr 0 zbits rest (by simp [kExtensionBitsDistr]) hz]
      simp [endExtensionsRead, skipBits]

--------------------------------------------------------------------------------
-- Concrete distributions of headers.h, unpacked per the modelled byte rule
-- (descriptor byte b: b < 0x80 ↦ stored in b bits, else literal b - 0x80;
-- least significant byte = selector 0).

/-- 0x84828180: literals 0, 1, 2 or 4 stored bits (field_encodings.h
`kU32Direct3Plus4`; also the literal used for `Alpha::bytes_per_alpha`). -/
def kU32Direct3Plus4 : U32Distr := .table [.lit 0, .lit 1, .lit 2, .stored 4 0]

/-- Modelled from the spec: `kU32Direct2348` (field_encodings.h is missing);
direct values 2, 3, 4, 8, matching its name. -/
def kU32Direct2348 : U32Distr := .table [.lit 2, .lit 3, .lit 4, .lit 8]

/-- 0x20088180 (`FrameInfo::duration`). -/
def distr0x20088180 : U32Distr := .table [.lit 0, .lit 1, .stored 8 0, .stored 32 0]

/-- 0x20181008 (`PassHeader::flags`). -/
def distr0x20181008 : U32Distr :=
  .table [.stored 8 0, .stored 16 0, .stored 24 0, .stored 32 0]

/-- 0x150F0E0C (`PassHeader` group size TOC entries). -/
def distr0x150F0E0C : U32Distr :=
  .table [.stored 12 0, .stored 14 0, .stored 15 0, .stored 21 0]

/-- 0x1C14100C (`Preview::size_bits`). -/
def distr0x1C14100C : U32Distr :=
  .table [.stored 12 0, .stored 16 0, .stored 20 0, .stored 28 0]

/-- 0x0D0B0907 (`Preview::xsize` / `Preview::ysize`). -/
def distr0x0D0B0907 : U32Distr :=
  .table [.stored 7 0, .stored 9 0, .stored 11 0, .stored 13 0]

/-- 0x20100380 (`Animation::num_loops`). -/
def distr0x20100380 : U32Distr := .table [.lit 0, .stored 3 0, .stored 16 0, .stored 32 0]

/-- 0x20140981 (`Animation` ticks numerator / denominator). -/
def distr0x20140981 : U32Distr := .table [.lit 1, .stored 9 0, .stored 20 0, .stored 32 0]

/-- 0x200D0B09 (`FileHeader::xsize_minus_1` / `ysize_minus_1`). -/
def distr0x200D0B09 : U32Distr :=
  .table [.stored 9 0, .stored 11 0, .stored 13 0, .stored 32 0]

--------------------------------------------------------------------------------
-- Header structures (src/headers.h).  uint32/uint64 fields are Nat, bool
-- fields Bool, fixed arrays and std::vector are List Nat.  Enum fields are
-- kept as their underlying u32 value, with the declared value set used by the
-- decode-direction validation.

/-- src/headers.h: 8 projective-transform corner coordinates, each
`U32(kU32RawBits + 8, 1, ...)`. -/
structure ProjectiveTransformParams where
  corner_coords : List Nat
deriving DecidableEq

structure TileHeader where
  all_default : Bool
  have_projective_transform : Bool
  projective_transform_params : ProjectiveTransformParams
  extensions : Nat
deriving DecidableEq

/-- src/headers.h: alpha channel; visited without an own all-default bit. -/
structure Alpha where
  bytes_per_alpha : Nat
  encoded : List Nat
deriving DecidableEq

/-- Modelled from the spec: `kNumTilesPerGroup` is a compile-time constant
derived from group/tile geometry in the missing common.h; the standard pik
geometry (512-pixel groups, 8-pixel blocks, 8-block tiles) gives 64. -/
def kNumTilesPerGroup : Nat := 64

structure GroupHeader where
  all_default : Bool
  nonserialized_have_alpha : Bool
  alpha : Alpha
  tile_headers : List TileHeader
  extensions : Nat
deriving DecidableEq

structure FrameInfo where
  all_default : Bool
  duration : Nat
  have_timecode : Bool
  timecode : Nat
  is_keyframe : Bool
deriving DecidableEq

/-- Modelled from the spec: `EpfParams` (epf.h) is not among the sources; the
spec says only that it is a nested header of adaptive-reconstruction
parameters, so it is modelled as an all-default bit plus one compressed-u32
parameter. -/
structure EpfParams where
  all_default : Bool
  strength : Nat
deriving DecidableEq

/-- Modelled from the spec: distribution for the modelled `EpfParams.strength`
field. -/
def kEpfStrengthDistr : U32Distr := .table [.lit 0, .stored 4 0, .stored 8 0, .stored 32 0]

/-- `ImageEncoding` declared value set: kPasses = 0, kProgressive = 1,
kLossless = 2. -/
def imageEncodingValid (v : Nat) : Bool := v < 3

def kPasses : Nat := 0
def kProgressive : Nat := 1
def kLossless : Nat := 2

/-- Modelled from the spec: `GaborishStrength` (gaborish.h) is not among the
sources; modelled with five strengths 0, 250, 500, 750, 1000 as values 0-4,
`k750` = 3 being the declared default in `PassHeader::VisitFields`. -/
def gaborishValid (v : Nat) : Bool := v < 5

def kGaborish750 : Nat := 3

structure PassHeader where
  size : Nat
  has_alpha : Bool
  is_last : Bool
  frame : FrameInfo
  encoding : Nat
  lossless_grayscale : Bool
  lossless_16_bits : Bool
  resampling_factor2 : Nat
  flags : Nat
  gaborish : Nat
  predict_lf : Bool
  predict_hf : Bool
  have_adaptive_reconstruction : Bool
  epf_params : EpfParams
  nonserialized_num_groups : Nat
  group_sizes : List Nat
  extensions : Nat
deriving DecidableEq

structure Preview where
  all_default : Bool
  size_bits : Nat
  xsize : Nat
  ysize : Nat
deriving DecidableEq

structure Animation where
  all_default : Bool
  num_loops : Nat
  ticks_numerator : Nat
  ticks_denominator : Nat
deriving DecidableEq

/-- Modelled from the spec: `Metadata` (metadata.h) is not among the sources;
sections 2 and 6 describe it as the carrier of opaque EXIF/IPTC/XMP blobs, so
it is modelled as an all-default bit plus three raw `Bytes` fields. -/
structure Metadata where
  all_default : Bool
  exif : List Nat
  iptc : List Nat
  xmp : List Nat
deriving DecidableEq

structure FileHeader where
  signature : Nat
  xsize_minus_1 : Nat
  ysize_minus_1 : Nat
  metadata : Metadata
  preview : Preview
  animation : Animation
  extensions : Nat
deriving DecidableEq

/-- src/headers.h line 363: `kSignature = 0x0A4D4CD7`. -/
def kSignature : Nat := 0x0A4D4CD7

/-- src/headers.h line 358. -/
def FileHeader.xsize (f : FileHeader) : Nat := f.xsize_minus_1 + 1

/-- src/headers.h line 359. -/
def FileHeader.ysize (f : FileHeader) : Nat := f.ysize_minus_1 + 1

--------------------------------------------------------------------------------
-- Default instances.  Modelled from the spec (section 3 lifecycle): a freshly
-- constructed header has every visited field at its declared default, nested
-- headers at their defaults, its all-default flag (where present) set, and
-- non-serialized fields at their member initializers.

def ptpDefault : ProjectiveTransformParams := ⟨List.replicate 8 1⟩

def tileDefault : TileHeader :=
  { all_default := true
    have_projective_transform := false
    projective_transform_params := ptpDefault
    extensions := 0 }

def alphaDefault : Alpha := { bytes_per_alpha := 1, encoded := [] }

def groupDefault : GroupHeader :=
  { all_default := true
    nonserialized_have_alpha := false
    alpha := alphaDefault
    tile_headers := List.replicate kNumTilesPerGroup tileDefault
    extensions := 0 }

def frameDefault : FrameInfo :=
  { all_default := true
    duration := 0
    have_timecode := false
    timecode := 0
    is_keyframe := false }

def epfDefault : EpfParams := { all_default := true, strength := 0 }

def passDefault : PassHeader :=
  { size := 0
    has_alpha := false
    is_last := true
    frame := frameDefault
    encoding := kPasses
    lossless_grayscale := false
    lossless_16_bits := false
    resampling_factor2 := 2
    flags := 0
    gaborish := kGaborish750
    predict_lf := true
    predict_hf := true
    have_adaptive_reconstruction := false
    epf_params := epfDefault
    nonserialized_num_groups := 0
    group_sizes := []
    extensions := 0 }

def previewDefault : Preview :=
  { all_default := true, size_bits := 0, xsize := 0, ysize := 0 }

def animationDefault : Animation :=
  { all_default := true, num_loops := 0, ticks_numerator := 0, ticks_denominator := 1 }

def metaDefault : Metadata :=
  { all_default := true, exif := [], iptc := [], xmp := [] }

def fileDefault : FileHeader :=
  { signature := kSignature
    xsize_minus_1 := 0
    ysize_minus_1 := 0
    metadata := metaDefault
    preview := previewDefault
    animation := animationDefault
    extensions := 0 }

--------------------------------------------------------------------------------
-- All-default computation.  Modelled from the spec (section 4.1,
-- `AllDefault`): the encode-direction visitor computes, by value, whether
-- every visited field of the header equals its declared default (guarded
-- fields are only examined when their guard holds, matching the shared field
-- list), then writes that bit.

def tileAllDefaultQ (t : TileHeader) : Bool :=
  !t.have_projective_transform && t.extensions == 0

def alphaAllDefaultQ (a : Alpha) : Bool :=
  a.bytes_per_alpha == 1 && a.encoded == []

def groupAllDefaultQ (g : GroupHeader) : Bool :=
  (if g.nonserialized_have_alpha then alphaAllDefaultQ g.alpha else true) &&
  g.tile_headers.all (fun t => tileAllDefaultQ t) &&
  g.extensions == 0

def frameAllDefaultQ (f : FrameInfo) : Bool :=
  f.duration == 0 && !f.have_timecode && !f.is_keyframe

def epfAllDefaultQ (e : EpfParams) : Bool := e.strength == 0

def previewAllDefaultQ (p : Preview) : Bool :=
  p.size_bits == 0 && p.xsize == 0 && p.ysize == 0

def animationAllDefaultQ (a : Animation) : Bool :=
  a.num_loops == 0 && a.ticks_numerator == 0 && a.ticks_denominator == 1

def metaAllDefaultQ (m : Metadata) : Bool :=
  m.exif == [] && m.iptc == [] && m.xmp == []

--------------------------------------------------------------------------------
-- Writer / reader plumbing.

/-- Sequence two writer results, concatenating their bits. -/
def wapp (a b : Option (List Bool)) : Option (List Bool) :=
  match a, b with
  | some x, some y => some (x ++ y)
  | _, _ => none

theorem wapp_eq_some (a b : Option (List Bool)) (bits : List Bool)
    (h : wapp a b = some bits) :
    ∃ x y, a = some x ∧ b = some y ∧ bits = x ++ y := by
  match a, b with
  | some x, some y =>
    refine ⟨x, y, rfl, rfl, ?_⟩
    simpa [wapp] using h.symm
  | some _, none => simp [wapp] at h
  | none, _ => simp [wapp] at h

theorem obind_some {α β : Type} (a : α) (f : α → Option β) :
    Option.bind (some a) f = f a := rfl

--------------------------------------------------------------------------------
-- ProjectiveTransformParams (src/headers.h lines 36-50).

def writeCoordSeq : List Nat → Option (List Bool)
  | [] => some []
  | c :: cs => wapp (writeU32 (.raw 8) c) (writeCoordSeq cs)

def readCoordSeq : Nat → List Bool → Option (List Nat × List Bool)
  | 0, s => some ([], s)
  | n + 1, s =>
    (readU32 (.raw 8) s).bind (fun r1 =>
    (readCoordSeq n r1.2).bind (fun r2 =>
    some (r1.1 :: r2.1, r2.2)))

/-- `ProjectiveTransformParams::VisitFields`: 8 coords,
`U32(kU32RawBits + 8, 1, ...)` each.  The length-8 condition is the C++
fixed-array type made explicit. -/
def WritePTP (p : ProjectiveTransformParams) : Option (List Bool) :=
  if p.corner_coords.length == 8 then writeCoordSeq p.corner_coords else none

def ReadPTP (s : List Bool) : Option (ProjectiveTransformParams × List Bool) :=
  (readCoordSeq 8 s).bind (fun r =>
  some (ProjectiveTransformParams.mk r.1, r.2))

theorem readCoordSeq_writeCoordSeq (cs : List Nat) (bits rest : List Bool)
    (hw : writeCoordSeq cs = some bits) :
    readCoordSeq cs.length (bits ++ rest) = some (cs, rest) := by
  induction cs generalizing bits with
  | nil =>
    obtain rfl : _ = bits := Option.some.injEq .. ▸ hw
    simp [readCoordSeq]
  | cons c tl ih =>
    obtain ⟨x, y, hx, hy, rfl⟩ := wapp_eq_some _ _ _ hw
    simp only [List.length_cons, readCoordSeq, List.append_assoc]
    rw [readU32_writeU32 _ _ _ _ (by trivial) hx]
    simp only [obind_some]
    rw [ih y hy]
    simp

theorem ReadPTP_WritePTP (p : ProjectiveTransformParams) (bits rest : List Bool)
    (hw : WritePTP p = some bits) :
    ReadPTP (bits ++ rest) = some (p, rest) := by
  rcases p with ⟨cs⟩
  simp only [WritePTP] at hw
  by_cases hn : cs.length = 8
  · rw [if_pos (by simpa using hn)] at hw
    simp only [ReadPTP]
    rw [← hn, readCoordSeq_writeCoordSeq cs bits rest hw]
    simp
  · rw [if_neg (by simpa using hn)] at hw
    exact absurd hw (by simp)

--------------------------------------------------------------------------------
-- TileHeader (src/headers.h lines 52-76).

/-- Fields of `TileHeader::VisitFields` between the all-default bit and
`BeginExtensions`. -/
def WriteTileBody (t : TileHeader) : Option (List Bool) :=
  wapp (some [t.have_projective_transform])
    (if t.have_projective_transform then WritePTP t.projective_transform_params
     else some [])

def WriteTileHeader (t : TileHeader) : Option (List Bool) :=
  if tileAllDefaultQ t then some [true]
  else
    match wapp (WriteTileBody t) (writeExtensions t.extensions) with
    | none => none
    | some bs => some (false :: bs)

def ReadTileBody (s : List Bool) : Option (TileHeader × List Bool) :=
  (readBool s).bind (fun r1 =>
  ((if r1.1 then ReadPTP r1.2 else some (ptpDefault, r1.2)) :
      Option (ProjectiveTransformParams × List Bool)).bind (fun r2 =>
  some ({ all_default := false, have_projective_transform := r1.1,
          projective_transform_params := r2.1, extensions := 0 }, r2.2)))

def ReadTileHeader (s : List Bool) : Option (TileHeader × List Bool) :=
  (readBool s).bind (fun r1 =>
  if r1.1 then some (tileDefault, r1.2)
  else
    (ReadTileBody r1.2).bind (fun r2 =>
    (readExtensions r2.2).bind (fun r3 =>
    some ({ r2.1 with extensions := r3.1 }, r3.2))))

/-- Well-formedness for exact round-tripping of a `TileHeader`: the stored
all-default flag agrees with the by-value computation, an all-default header
is the default instance, and the projective-transform params hidden behind a
false guard are at their defaults. -/
def wfTile (t : TileHeader) : Prop :=
  t.all_default = tileAllDefaultQ t ∧
  (tileAllDefaultQ t = true → t = tileDefault) ∧
  (t.have_projective_transform = false → t.projective_transform_params = ptpDefault)

theorem ReadTileBody_WriteTileBody (t : TileHeader) (bits rest : List Bool)
    (hpt : t.have_projective_transform = false → t.projective_transform_params = ptpDefault)
    (hw : WriteTileBody t = some bits) :
    ReadTileBody (bits ++ rest) =
      some ({ all_default := false,
              have_projective_transform := t.have_projective_transform,
              projective_transform_params := t.projective_transform_params,
              extensions := 0 }, rest) := by
  obtain ⟨x, y, hx, hy, rfl⟩ := wapp_eq_some _ _ _ hw
  obtain rfl : [t.have_projective_transform] = x := Option.some.injEq .. ▸ hx
  simp only [ReadTileBody, List.cons_append, List.nil_append, readBool_cons, obind_some]
  by_cases h : t.have_projective_transform
  · rw [if_pos (by simp [h])] at hy ⊢
    rw [ReadPTP_WritePTP _ _ _ hy]
    simp [h]
  · have hf : t.have_projective_transform = false := by simpa using h
    rw [if_neg (by simp [hf])] at hy
    obtain rfl : [] = y := Option.some.injEq .. ▸ hy
    simp [hf, hpt hf]

theorem ReadTileHeader_WriteTileHeader (t : TileHeader) (bits rest : List Bool)
    (hwf : wfTile t) (hw : WriteTileHeader t = some bits) :
    ReadTileHeader (bits ++ rest) = some (t, rest) := by
  obtain ⟨had, hdef, hptp⟩ := hwf
  simp only [WriteTileHeader] at hw
  by_cases hq : tileAllDefaultQ t
  · rw [if_pos hq] at hw
    obtain rfl : [true] = bits := Option.some.injEq .. ▸ hw
    simp [ReadTileHeader, readBool_cons, obind_some, hdef hq]
  · rw [if_neg hq] at hw
    rcases hb : wapp (WriteTileBody t) (writeExtensions t.extensions) with _ | bs
    · rw [hb] at hw; exact absurd hw (by simp)
    · rw [hb] at hw
      obtain rfl : false :: bs = bits := Option.some.injEq .. ▸ hw
      obtain ⟨x, y, hx, hy, rfl⟩ := wapp_eq_some _ _ _ hb
      simp only [ReadTileHeader, List.cons_append, readBool_cons, obind_some,
        Bool.false_eq_true, if_false, List.append_assoc]
      rw [ReadTileBody_WriteTileBody t x (y ++ rest) hptp hx]
      simp only [obind_some]
      rw [readExtensions_writeExtensions _ _ _ hy]
      simp only [obind_some]
      have hadf : t.all_default = false := by rw [had]; simpa using hq
      rcases t with ⟨ad, hptf, ptp, ext⟩
      simp only at hadf
      simp [hadf]

--------------------------------------------------------------------------------
-- Alpha and GroupHeader (src/headers.h lines 83-136).

/-- `Alpha::VisitFields`: `U32(0x84828180u, 1, &bytes_per_alpha)` then
`Bytes(kRaw, &encoded)`; no all-default bit (commented out in the source). -/
def WriteAlpha (a : Alpha) : Option (List Bool) :=
  wapp (writeU32 kU32Direct3Plus4 a.bytes_per_alpha) (writeBytes a.encoded)

def ReadAlpha (s : List Bool) : Option (Alpha × List Bool) :=
  (readU32 kU32Direct3Plus4 s).bind (fun r1 =>
  (readBytes r1.2).bind (fun r2 =>
  some (Alpha.mk r1.1 r2.1, r2.2)))

theorem ReadAlpha_WriteAlpha (a : Alpha) (bits rest : List Bool)
    (hw : WriteAlpha a = some bits) :
    ReadAlpha (bits ++ rest) = some (a, rest) := by
  rcases a with ⟨bpa, enc⟩
  obtain ⟨x, y, hx, hy, rfl⟩ := wapp_eq_some _ _ _ hw
  simp only [ReadAlpha, List.append_assoc]
  rw [readU32_writeU32 _ _ _ _ (by simp [kU32Direct3Plus4]) hx]
  simp only [obind_some]
  rw [readBytes_writeBytes _ _ _ hy]
  simp

def writeTileSeq : List TileHeader → Option (List Bool)
  | [] => some []
  | t :: ts => wapp (WriteTileHeader t) (writeTileSeq ts)

def readTileSeq : Nat → List Bool → Option (List TileHeader × List Bool)
  | 0, s => some ([], s)
  | n + 1, s =>
    (ReadTileHeader s).bind (fun r1 =>
    (readTileSeq n r1.2).bind (fun r2 =>
    some (r1.1 :: r2.1, r2.2)))

theorem readTileSeq_writeTileSeq (ts : List TileHeader) (bits rest : List Bool)
    (hwf : ∀ t ∈ ts, wfTile t) (hw : writeTileSeq ts = some bits) :
    readTileSeq ts.length (bits ++ rest) = some (ts, rest) := by
  induction ts generalizing bits with
  | nil =>
    obtain rfl : _ = bits := Option.some.injEq .. ▸ hw
    simp [readTileSeq]
  | cons t tl ih =>
    obtain ⟨x, y, hx, hy, rfl⟩ := wapp_eq_some _ _ _ hw
    simp only [List.length_cons, readTileSeq, List.append_assoc]
    rw [ReadTileHeader_WriteTileHeader t x _ (hwf t (by simp)) hx]
    simp only [obind_some]
    rw [ih y (fun u hu => hwf u (List.mem_cons_of_mem t hu)) hy]
    simp

/-- Fields of `GroupHeader::VisitFields` between the all-default bit and
`BeginExtensions`: optional alpha (guarded by the non-serialized flag), then
the fixed tile-header array. -/
def WriteGroupBody (g : GroupHeader) : Option (List Bool) :=
  wapp (if g.nonserialized_have_alpha then WriteAlpha g.alpha else some [])
    (writeTileSeq g.tile_headers)

def WriteGroupHeader (g : GroupHeader) : Option (List Bool) :=
  if groupAllDefaultQ g then some [true]
  else
    match wapp (WriteGroupBody g) (writeExtensions g.extensions) with
    | none => none
    | some bs => some (false :: bs)

/-- Decode direction; `haveAlpha` is the non-serialized decode context that
the caller must set before reading (src/headers.h line 130). -/
def ReadGroupHeader (haveAlpha : Bool) (s : List Bool) :
    Option (GroupHeader × List Bool) :=
  (readBool s).bind (fun r1 =>
  if r1.1 then some ({ groupDefault with nonserialized_have_alpha := haveAlpha }, r1.2)
  else
    ((if haveAlpha then ReadAlpha r1.2 else some (alphaDefault, r1.2)) :
        Option (Alpha × List Bool)).bind (fun r2 =>
    (readTileSeq kNumTilesPerGroup r2.2).bind (fun r3 =>
    (readExtensions r3.2).bind (fun r4 =>
    some ({ all_default := false, nonserialized_have_alpha := haveAlpha,
            alpha := r2.1, tile_headers := r3.1, extensions := r4.1 }, r4.2)))))

/-- Well-formedness for exact round-tripping of a `GroupHeader`. -/
def wfGroup (g : GroupHeader) : Prop :=
  g.all_default = groupAllDefaultQ g ∧
  (groupAllDefaultQ g = true →
    g = { groupDefault with nonserialized_have_alpha := g.nonserialized_have_alpha }) ∧
  (g.nonserialized_have_alpha = false → g.alpha = alphaDefault) ∧
  g.tile_headers.length = kNumTilesPerGroup ∧
  (∀ t ∈ g.tile_headers, wfTile t)

theorem ReadGroupHeader_WriteGroupHeader (g : GroupHeader) (bits rest : List Bool)
    (hwf : wfGroup g) (hw : WriteGroupHeader g = some bits) :
    ReadGroupHeader g.nonserialized_have_alpha (bits ++ rest) = some (g, rest) := by
  obtain ⟨had, hdef, halpha, hlen, htiles⟩ := hwf
  simp only [WriteGroupHeader] at hw
  by_cases hq : groupAllDefaultQ g
  · rw [if_pos hq] at hw
    obtain rfl : [true] = bits := Option.some.injEq .. ▸ hw
    rw [hdef hq]
    simp [ReadGroupHeader, readBool_cons, obind_some]
  · rw [if_neg hq] at hw
    rcases hb : wapp (WriteGroupBody g) (writeExtensions g.extensions) with _ | bs
    · rw [hb] at hw; exact absurd hw (by simp)
    · rw [hb] at hw
      obtain rfl : false :: bs = bits := Option.some.injEq .. ▸ hw
      obtain ⟨x, y, hx, hy, rfl⟩ := wapp_eq_some _ _ _ hb
      obtain ⟨xa, xt, hxa, hxt, rfl⟩ := wapp_eq_some _ _ _ hx
      simp only [ReadGroupHeader, List.cons_append, readBool_cons, obind_some,
        Bool.false_eq_true, if_false, List.append_assoc]
      have hadf : g.all_default = false := by rw [had]; simpa using hq
      by_cases ha : g.nonserialized_have_alpha
      · rw [if_pos (by simp [ha])] at hxa ⊢
        rw [ReadAlpha_WriteAlpha _ _ _ hxa]
        simp only [obind_some]
        rw [← hlen, readTileSeq_writeTileSeq _ _ _ htiles hxt]
        simp only [obind_some]
        rw [readExtensions_writeExtensions _ _ _ hy]
        simp only [obind_some]
        rcases g with ⟨ad, nha, al, tls, ext⟩
        simp only at hadf ha
        simp [hadf, ha]
      · have haf : g.nonserialized_have_alpha = false := by simpa using ha
        rw [if_neg (by simp [haf])] at hxa ⊢
        obtain rfl : [] = xa := Option.some.injEq .. ▸ hxa
        simp only [List.nil_append, obind_some]
        rw [← hlen, readTileSeq_writeTileSeq _ _ _ htiles hxt]
        simp only [obind_some]
        rw [readExtensions_writeExtensions _ _ _ hy]
        simp only [obind_some]
        rcases g with ⟨ad, nha, al, tls, ext⟩
        simp only at hadf haf
        simp only at halpha
        simp [hadf, haf, halpha haf]

--------------------------------------------------------------------------------
-- FrameInfo (src/headers.h lines 149-178).

def WriteFrameBody (f : FrameInfo) : Option (List Bool) :=
  wapp (writeU32 distr0x20088180 f.duration)
  (wapp (some [f.have_timecode])
  (wapp (if f.have_timecode then writeU32 (.raw 32) f.timecode else some [])
        (some [f.is_keyframe])))

def WriteFrameInfo (f : FrameInfo) : Option (List Bool) :=
  if frameAllDefaultQ f then some [true]
  else
    match WriteFrameBody f with
    | none => none
    | some bs => some (false :: bs)

def ReadFrameInfo (s : List Bool) : Option (FrameInfo × List Bool) :=
  (readBool s).bind (fun r1 =>
  if r1.1 then some (frameDefault, r1.2)
  else
    (readU32 distr0x20088180 r1.2).bind (fun r2 =>
    (readBool r2.2).bind (fun r3 =>
    ((if r3.1 then readU32 (.raw 32) r3.2 else some (0, r3.2)) :
        Option (Nat × List Bool)).bind (fun r4 =>
    (readBool r4.2).bind (fun r5 =>
    some ({ all_default := false, duration := r2.1, have_timecode := r3.1,
            timecode := r4.1, is_keyframe := r5.1 }, r5.2))))))

def wfFrame (f : FrameInfo) : Prop :=
  f.all_default = frameAllDefaultQ f ∧
  (frameAllDefaultQ f = true → f = frameDefault) ∧
  (f.have_timecode = false → f.timecode = 0)

theorem ReadFrameInfo_WriteFrameInfo (f : FrameInfo) (bits rest : List Bool)
    (hwf : wfFrame f) (hw : WriteFrameInfo f = some bits) :
    ReadFrameInfo (bits ++ rest) = some (f, rest) := by
  obtain ⟨had, hdef, htc⟩ := hwf
  simp only [WriteFrameInfo] at hw
  by_cases hq : frameAllDefaultQ f
  · rw [if_pos hq] at hw
    obtain rfl : [true] = bits := Option.some.injEq .. ▸ hw
    simp [ReadFrameInfo, readBool_cons, obind_some, hdef hq]
  · rw [if_neg hq] at hw
    rcases hb : WriteFrameBody f with _ | bs
    · rw [hb] at hw; exact absurd hw (by simp)
    · rw [hb] at hw
      obtain rfl : false :: bs = bits := Option.some.injEq .. ▸ hw
      obtain ⟨x1, y1, hx1, hy1, rfl⟩ := wapp_eq_some _ _ _ hb
      obtain ⟨x2, y2, hx2, hy2, rfl⟩ := wapp_eq_some _ _ _ hy1
      obtain ⟨x3, x4, hx3, hx4, rfl⟩ := wapp_eq_some _ _ _ hy2
      obtain rfl : [f.have_timecode] = x2 := Option.some.injEq .. ▸ hx2
      obtain rfl : [f.is_keyframe] = x4 := Option.some.injEq .. ▸ hx4
      have hadf : f.all_default = false := by rw [had]; simpa using hq
      simp only [ReadFrameInfo, List.cons_append, List.append_assoc, List.nil_append,
        List.singleton_append, readBool_cons, obind_some, Bool.false_eq_true, if_false]
      rw [readU32_writeU32 _ _ _ _ (by simp [distr0x20088180]) hx1]
      simp only [obind_some, List.singleton_append, List.nil_append, readBool_cons]
      by_cases h : f.have_timecode
      · rw [if_pos (by simp [h])] at hx3 ⊢
        rw [readU32_writeU32 _ _ _ _ (by trivial) hx3]
        simp only [obind_some, List.cons_append, List.nil_append, readBool_cons]
        rcases f with ⟨ad, du, htc1, tc, kf⟩
        simp only at hadf h
        simp [hadf, h]
      · have hf : f.have_timecode = false := by simpa using h
        rw [if_neg (by simp [hf])] at hx3
        obtain rfl : [] = x3 := Option.some.injEq .. ▸ hx3
        simp only [List.nil_append, hf, Bool.false_eq_true, if_false, obind_some,
          List.cons_append, List.singleton_append, readBool_cons]
        rcases f with ⟨ad, du, htc1, tc, kf⟩
        simp only at hadf hf
        simp only at htc
        simp [hadf, hf, htc hf]

--------------------------------------------------------------------------------
-- EpfParams (modelled from the spec; epf.h is not among the sources).

def WriteEpfParams (e : EpfParams) : Option (List Bool) :=
  if epfAllDefaultQ e then some [true]
  else
    match writeU32 kEpfStrengthDistr e.strength with
    | none => none
    | some bs => some (false :: bs)

def ReadEpfParams (s : List Bool) : Option (EpfParams × List Bool) :=
  (readBool s).bind (fun r1 =>
  if r1.1 then some (epfDefault, r1.2)
  else
    (readU32 kEpfStrengthDistr r1.2).bind (fun r2 =>
    some ({ all_default := false, strength := r2.1 }, r2.2)))

def wfEpf (e : EpfParams) : Prop :=
  e.all_default = epfAllDefaultQ e ∧ (epfAllDefaultQ e = true → e = epfDefault)

theorem ReadEpfParams_WriteEpfParams (e : EpfParams) (bits rest : List Bool)
    (hwf : wfEpf e) (hw : WriteEpfParams e = some bits) :
    ReadEpfParams (bits ++ rest) = some (e, rest) := by
  obtain ⟨had, hdef⟩ := hwf
  simp only [WriteEpfParams] at hw
  by_cases hq : epfAllDefaultQ e
  · rw [if_pos hq] at hw
    obtain rfl : [true] = bits := Option.some.injEq .. ▸ hw
    simp [ReadEpfParams, readBool_cons, obind_some, hdef hq]
  · rw [if_neg hq] at hw
    rcases hb : writeU32 kEpfStrengthDistr e.strength with _ | bs
    · rw [hb] at hw; exact absurd hw (by simp)
    · rw [hb] at hw
      obtain rfl : false :: bs = bits := Option.some.injEq .. ▸ hw
      have hadf : e.all_default = false := by rw [had]; simpa using hq
      simp only [ReadEpfParams, List.cons_append, readBool_cons, obind_some,
        Bool.false_eq_true, if_false, List.append_assoc]
      rw [readU32_writeU32 _ _ _ _ (by simp [kEpfStrengthDistr]) hb]
      simp only [obind_some]
      rcases e with ⟨ad, st⟩
      simp only at hadf
      simp [hadf]

--------------------------------------------------------------------------------
-- Preview and Animation (src/headers.h lines 288-332).

def WritePreview (p : Preview) : Option (List Bool) :=
  if previewAllDefaultQ p then some [true]
  else
    match wapp (writeU32 distr0x1C14100C p.size_bits)
          (wapp (writeU32 distr0x0D0B0907 p.xsize)
                (writeU32 distr0x0D0B0907 p.ysize)) with
    | none => none
    | some bs => some (false :: bs)

def ReadPreview (s : List Bool) : Option (Preview × List Bool) :=
  (readBool s).bind (fun r1 =>
  if r1.1 then some (previewDefault, r1.2)
  else
    (readU32 distr0x1C14100C r1.2).bind (fun r2 =>
    (readU32 distr0x0D0B0907 r2.2).bind (fun r3 =>
    (readU32 distr0x0D0B0907 r3.2).bind (fun r4 =>
    some ({ all_default := false, size_bits := r2.1, xsize := r3.1,
            ysize := r4.1 }, r4.2)))))

def wfPreview (p : Preview) : Prop :=
  p.all_default = previewAllDefaultQ p ∧
  (previewAllDefaultQ p = true → p = previewDefault)

theorem ReadPreview_WritePreview (p : Preview) (bits rest : List Bool)
    (hwf : wfPreview p) (hw : WritePreview p = some bits) :
    ReadPreview (bits ++ rest) = some (p, rest) := by
  obtain ⟨had, hdef⟩ := hwf
  simp only [WritePreview] at hw
  by_cases hq : previewAllDefaultQ p
  · rw [if_pos hq] at hw
    obtain rfl : [true] = bits := Option.some.injEq .. ▸ hw
    simp [ReadPreview, readBool_cons, obind_some, hdef hq]
  · rw [if_neg hq] at hw
    rcases hb : wapp (writeU32 distr0x1C14100C p.size_bits)
        (wapp (writeU32 distr0x0D0B0907 p.xsize)
              (writeU32 distr0x0D0B0907 p.ysize)) with _ | bs
    · rw [hb] at hw; exact absurd hw (by simp)
    · rw [hb] at hw
      obtain rfl : false :: bs = bits := Option.some.injEq .. ▸ hw
      obtain ⟨x1, y1, hx1, hy1, rfl⟩ := wapp_eq_some _ _ _ hb
      obtain ⟨x2, x3, hx2, hx3, rfl⟩ := wapp_eq_some _ _ _ hy1
      have hadf : p.all_default = false := by rw [had]; simpa using hq
      simp only [ReadPreview, List.cons_append, readBool_cons, obind_some,
        Bool.false_eq_true, if_false, List.append_assoc]
      rw [readU32_writeU32 _ _ _ _ (by simp [distr0x1C14100C]) hx1]
      simp only [obind_some]
      rw [readU32_writeU32 _ _ _ _ (by simp [distr0x0D0B0907]) hx2]
      simp only [obind_some]
      rw [readU32_writeU32 _ _ _ _ (by simp [distr0x0D0B0907]) hx3]
      simp only [obind_some]
      rcases p with ⟨ad, sb, xs, ys⟩
      simp only at hadf
      simp [hadf]

def WriteAnimation (a : Animation) : Option (List Bool) :=
  if animationAllDefaultQ a then some [true]
  else
    match wapp (writeU32 distr0x20100380 a.num_loops)
          (wapp (writeU32 distr0x20140981 a.ticks_numerator)
                (writeU32 distr0x20140981 a.ticks_denominator)) with
    | none => none
    | some bs => some (false :: bs)

def ReadAnimation (s : List Bool) : Option (Animation × List Bool) :=
  (readBool s).bind (fun r1 =>
  if r1.1 then some (animationDefault, r1.2)
  else
    (readU32 distr0x20100380 r1.2).bind (fun r2 =>
    (readU32 distr0x20140981 r2.2).bind (fun r3 =>
    (readU32 distr0x20140981 r3.2).bind (fun r4 =>
    some ({ all_default := false, num_loops := r2.1, ticks_numerator := r3.1,
            ticks_denominator := r4.1 }, r4.2)))))

def wfAnimation (a : Animation) : Prop :=
  a.all_default = animationAllDefaultQ a ∧
  (animationAllDefaultQ a = true → a = animationDefault)

theorem ReadAnimation_WriteAnimation (a : Animation) (bits rest : List Bool)
    (hwf : wfAnimation a) (hw : WriteAnimation a = some bits) :
    ReadAnimation (bits ++ rest) = some (a, rest) := by
  obtain ⟨had, hdef⟩ := hwf
  simp only [WriteAnimation] at hw
  by_cases hq : animationAllDefaultQ a
  · rw [if_pos hq] at hw
    obtain rfl : [true] = bits := Option.some.injEq .. ▸ hw
    simp [ReadAnimation, readBool_cons, obind_some, hdef hq]
  · rw [if_neg hq] at hw
    rcases hb : wapp (writeU32 distr0x20100380 a.num_loops)
        (wapp (writeU32 distr0x20140981 a.ticks_numerator)
              (writeU32 distr0x20140981 a.ticks_denominator)) with _ | bs
    · rw [hb] at hw; exact absurd hw (by simp)
    · rw [hb] at hw
      obtain rfl : false :: bs = bits := Option.some.injEq .. ▸ hw
      obtain ⟨x1, y1, hx1, hy1, rfl⟩ := wapp_eq_some _ _ _ hb
      obtain ⟨x2, x3, hx2, hx3, rfl⟩ := wapp_eq_some _ _ _ hy1
      have hadf : a.all_default = false := by rw [had]; simpa using hq
      simp only [ReadAnimation, List.cons_append, readBool_cons, obind_some,
        Bool.false_eq_true, if_false, List.append_assoc]
      rw [readU32_writeU32 _ _ _ _ (by simp [distr0x20100380]) hx1]
      simp only [obind_some]
      rw [readU32_writeU32 _ _ _ _ (by simp [distr0x20140981]) hx2]
      simp only [obind_some]
      rw [readU32_writeU32 _ _ _ _ (by simp [distr0x20140981]) hx3]
      simp only [obind_some]
      rcases a with ⟨ad, nl, tn, td⟩
      simp only at hadf
      simp [hadf]

--------------------------------------------------------------------------------
-- Metadata (modelled from the spec; metadata.h is not among the sources).

def WriteMetadata (m : Metadata) : Option (List Bool) :=
  if metaAllDefaultQ m then some [true]
  else
    match wapp (writeBytes m.exif) (wapp (writeBytes m.iptc) (writeBytes m.xmp)) with
    | none => none
    | some bs => some (false :: bs)

def ReadMetadata (s : List Bool) : Option (Metadata × List Bool) :=
  (readBool s).bind (fun r1 =>
  if r1.1 then some (metaDefault, r1.2)
  else
    (readBytes r1.2).bind (fun r2 =>
    (readBytes r2.2).bind (fun r3 =>
    (readBytes r3.2).bind (fun r4 =>
    some ({ all_default := false, exif := r2.1, iptc := r3.1,
            xmp := r4.1 }, r4.2)))))

def wfMeta (m : Metadata) : Prop :=
  m.all_default = metaAllDefaultQ m ∧
  (metaAllDefaultQ m = true → m = metaDefault)

theorem ReadMetadata_WriteMetadata (m : Metadata) (bits rest : List Bool)
    (hwf : wfMeta m) (hw : WriteMetadata m = some bits) :
    ReadMetadata (bits ++ rest) = some (m, rest) := by
  obtain ⟨had, hdef⟩ := hwf
  simp only [WriteMetadata] at hw
  by_cases hq : metaAllDefaultQ m
  · rw [if_pos hq] at hw
    obtain rfl : [true] = bits := Option.some.injEq .. ▸ hw
    simp [ReadMetadata, readBool_cons, obind_some, hdef hq]
  · rw [if_neg hq] at hw
    rcases hb : wapp (writeBytes m.exif) (wapp (writeBytes m.iptc) (writeBytes m.xmp))
        with _ | bs
    · rw [hb] at hw; exact absurd hw (by simp)
    · rw [hb] at hw
      obtain rfl : false :: bs = bits := Option.some.injEq .. ▸ hw
      obtain ⟨x1, y1, hx1, hy1, rfl⟩ := wapp_eq_some _ _ _ hb
      obtain ⟨x2, x3, hx2, hx3, rfl⟩ := wapp_eq_some _ _ _ hy1
      have hadf : m.all_default = false := by rw [had]; simpa using hq
      simp only [ReadMetadata, List.cons_append, readBool_cons, obind_some,
        Bool.false_eq_true, if_false, List.append_assoc]
      rw [readBytes_writeBytes _ _ _ hx1]
      simp only [obind_some]
      rw [readBytes_writeBytes _ _ _ hx2]
      simp only [obind_some]
      rw [readBytes_writeBytes _ _ _ hx3]
      simp only [obind_some]
      rcases m with ⟨ad, ex, ip, xm⟩
      simp only at hadf
      simp [hadf]

--------------------------------------------------------------------------------
-- PassHeader (src/headers.h lines 182-283).

/-- Fields guarded by `Conditional(encoding == ImageEncoding::kPasses)`. -/
def WritePassCond0 (p : PassHeader) : Option (List Bool) :=
  wapp (writeU32 distr0x20181008 p.flags)
  (wapp (writeU32 kU32Direct3Plus4 p.gaborish)
  (wapp (some [p.predict_lf])
  (wapp (some [p.predict_hf])
  (wapp (some [p.have_adaptive_reconstruction])
        (if p.have_adaptive_reconstruction then WriteEpfParams p.epf_params
         else some [])))))

def ReadPassCond0 (s : List Bool) :
    Option ((Nat × Nat × Bool × Bool × Bool × EpfParams) × List Bool) :=
  (readU32 distr0x20181008 s).bind (fun r1 =>
  (readEnum kU32Direct3Plus4 gaborishValid r1.2).bind (fun r2 =>
  (readBool r2.2).bind (fun r3 =>
  (readBool r3.2).bind (fun r4 =>
  (readBool r4.2).bind (fun r5 =>
  ((if r5.1 then ReadEpfParams r5.2 else some (epfDefault, r5.2)) :
      Option (EpfParams × List Bool)).bind (fun r6 =>
  some ((r1.1, r2.1, r3.1, r4.1, r5.1, r6.1), r6.2)))))))

/-- Fields guarded by `Conditional(encoding != ImageEncoding::kProgressive)`:
resampling factor and the per-group TOC. -/
def writeGroupSizeSeq : List Nat → Option (List Bool)
  | [] => some []
  | n :: ns => wapp (writeU32 distr0x150F0E0C n) (writeGroupSizeSeq ns)

def readGroupSizeSeq : Nat → List Bool → Option (List Nat × List Bool)
  | 0, s => some ([], s)
  | n + 1, s =>
    (readU32 distr0x150F0E0C s).bind (fun r1 =>
    (readGroupSizeSeq n r1.2).bind (fun r2 =>
    some (r1.1 :: r2.1, r2.2)))

def WritePassTOC (p : PassHeader) : Option (List Bool) :=
  wapp (writeU32 kU32Direct2348 p.resampling_factor2)
       (writeGroupSizeSeq p.group_sizes)

def ReadPassTOC (numGroups : Nat) (s : List Bool) :
    Option ((Nat × List Nat) × List Bool) :=
  (readU32 kU32Direct2348 s).bind (fun r1 =>
  (readGroupSizeSeq numGroups r1.2).bind (fun r2 =>
  some ((r1.1, r2.1), r2.2)))

def WritePassHeader (p : PassHeader) : Option (List Bool) :=
  wapp (some (writeU64 p.size))
  (wapp (some [p.has_alpha])
  (wapp (some [p.is_last])
  (wapp (if p.is_last then WriteFrameInfo p.frame else some [])
  (wapp (writeU32 kU32Direct3Plus4 p.encoding)
  (wapp (if p.encoding = kPasses then WritePassCond0 p else some [])
  (wapp (if p.encoding ≠ kProgressive then WritePassTOC p else some [])
  (wapp (if p.encoding = kLossless then
           some [p.lossless_grayscale, p.lossless_16_bits]
         else some [])
        (writeExtensions p.extensions))))))))

/-- Decode direction; `numGroups` is `nonserialized_num_groups`, the decode
context the caller must set beforehand (src/headers.h lines 230, 274-276). -/
def ReadPassHeader (numGroups : Nat) (s : List Bool) :
    Option (PassHeader × List Bool) :=
  (readU64 s).bind (fun r1 =>
  (readBool r1.2).bind (fun r2 =>
  (readBool r2.2).bind (fun r3 =>
  ((if r3.1 then ReadFrameInfo r3.2 else some (frameDefault, r3.2)) :
      Option (FrameInfo × List Bool)).bind (fun r4 =>
  (readEnum kU32Direct3Plus4 imageEncodingValid r4.2).bind (fun r5 =>
  ((if r5.1 = kPasses then ReadPassCond0 r5.2
    else some ((0, kGaborish750, true, true, false, epfDefault), r5.2)) :
      Option ((Nat × Nat × Bool × Bool × Bool × EpfParams) × List Bool)).bind (fun r6 =>
  ((if r5.1 ≠ kProgressive then ReadPassTOC numGroups r6.2
    else some ((2, ([] : List Nat)), r6.2)) :
      Option ((Nat × List Nat) × List Bool)).bind (fun r7 =>
  ((if r5.1 = kLossless then
      (readBool r7.2).bind (fun a =>
      (readBool a.2).bind (fun b =>
      some ((a.1, b.1), b.2)))
    else some ((false, false), r7.2)) :
      Option ((Bool × Bool) × List Bool)).bind (fun r8 =>
  (readExtensions r8.2).bind (fun r9 =>
  some ({ size := r1.1, has_alpha := r2.1, is_last := r3.1, frame := r4.1,
          encoding := r5.1,
          lossless_grayscale := r8.1.1, lossless_16_bits := r8.1.2,
          resampling_factor2 := r7.1.1, flags := r6.1.1,
          gaborish := r6.1.2.1, predict_lf := r6.1.2.2.1,
          predict_hf := r6.1.2.2.2.1,
          have_adaptive_reconstruction := r6.1.2.2.2.2.1,
          epf_params := r6.1.2.2.2.2.2,
          nonserialized_num_groups := numGroups,
          group_sizes := r7.1.2, extensions := r9.1 }, r9.2))))))))))

/-- Well-formedness for exact round-tripping of a `PassHeader`: the enum
fields hold declared values, fields hidden behind false guards sit at their
defaults, nested headers are well formed, and the TOC length matches the
non-serialized group count. -/
def wfPass (p : PassHeader) : Prop :=
  imageEncodingValid p.encoding = true ∧
  (p.is_last = false → p.frame = frameDefault) ∧
  (p.is_last = true → wfFrame p.frame) ∧
  (p.encoding = kPasses →
    gaborishValid p.gaborish = true ∧
    (p.have_adaptive_reconstruction = true → wfEpf p.epf_params) ∧
    (p.have_adaptive_reconstruction = false → p.epf_params = epfDefault)) ∧
  (p.encoding ≠ kPasses →
    p.flags = 0 ∧ p.gaborish = kGaborish750 ∧ p.predict_lf = true ∧
    p.predict_hf = true ∧ p.have_adaptive_reconstruction = false ∧
    p.epf_params = epfDefault) ∧
  (p.encoding ≠ kProgressive → p.group_sizes.length = p.nonserialized_num_groups) ∧
  (p.encoding = kProgressive → p.resampling_factor2 = 2 ∧ p.group_sizes = []) ∧
  (p.encoding ≠ kLossless → p.lossless_grayscale = false ∧ p.lossless_16_bits = false)

theorem ReadPassCond0_WritePassCond0 (p : PassHeader) (bits rest : List Bool)
    (hgab : gaborishValid p.gaborish = true)
    (hepf1 : p.have_adaptive_reconstruction = true → wfEpf p.epf_params)
    (hepf0 : p.have_adaptive_reconstruction = false → p.epf_params = epfDefault)
    (hw : WritePassCond0 p = some bits) :
    ReadPassCond0 (bits ++ rest) =
      some ((p.flags, p.gaborish, p.predict_lf, p.predict_hf,
             p.have_adaptive_reconstruction, p.epf_params), rest) := by
  obtain ⟨x1, y1, hx1, hy1, rfl⟩ := wapp_eq_some _ _ _ hw
  obtain ⟨x2, y2, hx2, hy2, rfl⟩ := wapp_eq_some _ _ _ hy1
  obtain ⟨x3, y3, hx3, hy3, rfl⟩ := wapp_eq_some _ _ _ hy2
  obtain ⟨x4, y4, hx4, hy4, rfl⟩ := wapp_eq_some _ _ _ hy3
  obtain ⟨x5, x6, hx5, hx6, rfl⟩ := wapp_eq_some _ _ _ hy4
  obtain rfl : [p.predict_lf] = x3 := Option.some.injEq .. ▸ hx3
  obtain rfl : [p.predict_hf] = x4 := Option.some.injEq .. ▸ hx4
  obtain rfl : [p.have_adaptive_reconstruction] = x5 := Option.some.injEq .. ▸ hx5
  simp only [ReadPassCond0, List.append_assoc, List.cons_append, List.nil_append,
    List.singleton_append, readBool_cons, obind_some]
  rw [readU32_writeU32 _ _ _ _ (by simp [distr0x20181008]) hx1]
  simp only [obind_some]
  rw [readEnum_writeU32 _ _ _ _ _ (by simp [kU32Direct3Plus4]) hgab hx2]
  simp only [obind_some, readBool_cons, List.singleton_append, List.cons_append]
  by_cases h : p.have_adaptive_reconstruction
  · rw [if_pos (by simp [h])] at hx6 ⊢
    rw [ReadEpfParams_WriteEpfParams _ _ _ (hepf1 (by simpa using h)) hx6]
    simp
  · have hf : p.have_adaptive_reconstruction = false := by simpa using h
    rw [if_neg (by simp [hf])] at hx6
    obtain rfl : [] = x6 := Option.some.injEq .. ▸ hx6
    simp [hf, hepf0 hf]

theorem readGroupSizeSeq_writeGroupSizeSeq (ns : List Nat) (bits rest : List Bool)
    (hw : writeGroupSizeSeq ns = some bits) :
    readGroupSizeSeq ns.length (bits ++ rest) = some (ns, rest) := by
  induction ns generalizing bits with
  | nil =>
    obtain rfl : _ = bits := Option.some.injEq .. ▸ hw
    simp [readGroupSizeSeq]
  | cons n tl ih =>
    obtain ⟨x, y, hx, hy, rfl⟩ := wapp_eq_some _ _ _ hw
    simp only [List.length_cons, readGroupSizeSeq, List.append_assoc]
    rw [readU32_writeU32 _ _ _ _ (by simp [distr0x150F0E0C]) hx]
    simp only [obind_some]
    rw [ih y hy]
    simp

theorem ReadPassTOC_WritePassTOC (res : Nat) (gs : List Nat) (bits rest : List Bool)
    (hw : wapp (writeU32 kU32Direct2348 res) (writeGroupSizeSeq gs) = some bits) :
    ReadPassTOC gs.length (bits ++ rest) = some ((res, gs), rest) := by
  obtain ⟨x, y, hx, hy, rfl⟩ := wapp_eq_some _ _ _ hw
  simp only [ReadPassTOC, List.append_assoc]
  rw [readU32_writeU32 _ _ _ _ (by simp [kU32Direct2348]) hx]
  simp only [obind_some]
  rw [readGroupSizeSeq_writeGroupSizeSeq _ _ _ hy]
  simp

theorem ReadPassHeader_WritePassHeader (p : PassHeader) (bits rest : List Bool)
    (hwf : wfPass p) (hw : WritePassHeader p = some bits) :
    ReadPassHeader p.nonserialized_num_groups (bits ++ rest) = some (p, rest) := by
  obtain ⟨hvalid, hfr0, hfr1, hc0, hnc0, htoc, hprog, hnl⟩ := hwf
  obtain ⟨x1, y1, hx1, hy1, rfl⟩ := wapp_eq_some _ _ _ hw
  obtain ⟨x2, y2, hx2, hy2, rfl⟩ := wapp_eq_some _ _ _ hy1
  obtain ⟨x3, y3, hx3, hy3, rfl⟩ := wapp_eq_some _ _ _ hy2
  obtain ⟨x4, y4, hx4, hy4, rfl⟩ := wapp_eq_some _ _ _ hy3
  obtain ⟨x5, y5, hx5, hy5, rfl⟩ := wapp_eq_some _ _ _ hy4
  obtain ⟨x6, y6, hx6, hy6, rfl⟩ := wapp_eq_some _ _ _ hy5
  obtain ⟨x7, y7, hx7, hy7, rfl⟩ := wapp_eq_some _ _ _ hy6
  obtain ⟨x8, x9, hx8, hx9, rfl⟩ := wapp_eq_some _ _ _ hy7
  obtain rfl : writeU64 p.size = x1 := Option.some.injEq .. ▸ hx1
  obtain rfl : [p.has_alpha] = x2 := Option.some.injEq .. ▸ hx2
  obtain rfl : [p.is_last] = x3 := Option.some.injEq .. ▸ hx3
  obtain ⟨psize, palpha, plast, pframe, penc, plg, pl16, pres, pflags, pgab, plf,
    phf, phar, pepf, pnum, pgs, pext⟩ := p
  simp only at hvalid hfr0 hfr1 hc0 hnc0 htoc hprog hnl hx4 hx5 hx6 hx7 hx8 hx9
  simp only [ReadPassHeader, List.append_assoc, List.cons_append, List.nil_append,
    List.singleton_append, readU64_writeU64, obind_some, readBool_cons]
  have hframe :
      ∀ s2 : List Bool,
        (if plast = true then ReadFrameInfo (x4 ++ s2) else some (frameDefault, x4 ++ s2))
          = some (pframe, s2) ∨
        (x4 = [] ∧ pframe = frameDefault ∧ plast = false) := by
    intro s2
    by_cases hl : plast
    · rw [if_pos (by simp [hl])] at hx4 ⊢
      exact Or.inl (ReadFrameInfo_WriteFrameInfo _ _ _ (hfr1 (by simpa using hl)) hx4)
    · have hlf : plast = false := by simpa using hl
      rw [if_neg (by simp [hlf])] at hx4
      obtain rfl : [] = x4 := Option.some.injEq .. ▸ hx4
      exact Or.inr ⟨rfl, hfr0 hlf, hlf⟩
  have henc : penc = 0 ∨ penc = 1 ∨ penc = 2 := by
    simp only [imageEncodingValid, decide_eq_true_eq] at hvalid
    omega
  rcases hframe (x5 ++ (x6 ++ (x7 ++ (x8 ++ (x9 ++ rest))))) with hfr | ⟨rfl, rfl, hlf⟩ <;>
  [skip; simp only [hlf, Bool.false_eq_true, if_false, List.nil_append]] <;>
  · first
    | rw [hfr]
    | skip
    simp only [obind_some]
    rw [readEnum_writeU32 _ _ _ _ _ (by simp [kU32Direct3Plus4]) hvalid hx5]
    simp only [obind_some]
    rcases henc with rfl | rfl | rfl
    · -- kPasses
      rw [if_pos (by decide)] at hx6 ⊢
      obtain ⟨hgab, hepf1, hepf0⟩ := hc0 (by decide)
      rw [ReadPassCond0_WritePassCond0 _ _ _ hgab hepf1 hepf0 hx6]
      simp only [obind_some]
      rw [if_pos (by decide)] at hx7 ⊢
      have hlen : pgs.length = pnum := htoc (by decide)
      simp only [WritePassTOC] at hx7
      rw [← hlen, ReadPassTOC_WritePassTOC pres pgs x7 _ hx7]
      simp only [obind_some]
      rw [if_neg (by decide)] at hx8 ⊢
      obtain rfl : [] = x8 := Option.some.injEq .. ▸ hx8
      obtain ⟨hlg, hl16⟩ := hnl (by decide)
      simp only [List.nil_append, obind_some]
      rw [readExtensions_writeExtensions _ _ _ hx9]
      simp [hlg, hl16, hlen]
    · -- kProgressive
      rw [if_neg (by decide)] at hx6 ⊢
      simp only [obind_some]
      obtain rfl : [] = x6 := Option.some.injEq .. ▸ hx6
      obtain ⟨hfl, hgb, hplf, hphf, hhar, hepf⟩ := hnc0 (by decide)
      rw [if_neg (by decide)] at hx7 ⊢
      simp only [obind_some]
      obtain rfl : [] = x7 := Option.some.injEq .. ▸ hx7
      obtain ⟨hres, hgs⟩ := hprog (by decide)
      rw [if_neg (by decide)] at hx8 ⊢
      simp only [obind_some]
      obtain rfl : [] = x8 := Option.some.injEq .. ▸ hx8
      obtain ⟨hlg, hl16⟩ := hnl (by decide)
      simp only [List.nil_append, obind_some]
      rw [readExtensions_writeExtensions _ _ _ hx9]
      simp [hfl, hgb, hplf, hphf, hhar, hepf, hres, hgs, hlg, hl16, kGaborish750]
    · -- kLossless
      rw [if_neg (by decide)] at hx6 ⊢
      simp only [obind_some]
      obtain rfl : [] = x6 := Option.some.injEq .. ▸ hx6
      obtain ⟨hfl, hgb, hplf, hphf, hhar, hepf⟩ := hnc0 (by decide)
      simp only [List.nil_append]
      rw [if_pos (by decide)] at hx7 ⊢
      have hlen : pgs.length = pnum := htoc (by decide)
      simp only [WritePassTOC] at hx7
      rw [← hlen, ReadPassTOC_WritePassTOC pres pgs x7 _ hx7]
      simp only [obind_some]
      rw [if_pos (by decide)] at hx8 ⊢
      obtain rfl : [plg, pl16] = x8 := Option.some.injEq .. ▸ hx8
      simp only [List.cons_append, List.nil_append, readBool_cons, obind_some]
      rw [readExtensions_writeExtensions _ _ _ hx9]
      simp [hfl, hgb, hplf, hphf, hhar, hepf, hlen, kGaborish750]

--------------------------------------------------------------------------------
-- FileHeader (src/headers.h lines 335-375).

/-- `FileHeader::VisitFields`: signature (raw 32 bits), sizes, nested
metadata / preview / animation, extensions.  The C++ visitor writes the
signature field and then fails the visit when it differs from `kSignature`;
as a bit-producing function the two orders coincide (no bits are produced on
failure), so the check guards the whole writer here. -/
def WriteFileHeader (f : FileHeader) : Option (List Bool) :=
  if f.signature = kSignature then
    wapp (writeU32 (.raw 32) f.signature)
    (wapp (writeU32 distr0x200D0B09 f.xsize_minus_1)
    (wapp (writeU32 distr0x200D0B09 f.ysize_minus_1)
    (wapp (WriteMetadata f.metadata)
    (wapp (WritePreview f.preview)
    (wapp (WriteAnimation f.animation)
          (writeExtensions f.extensions))))))
  else none

def ReadFileHeader (s : List Bool) : Option (FileHeader × List Bool) :=
  (readU32 (.raw 32) s).bind (fun r1 =>
  if r1.1 = kSignature then
    (readU32 distr0x200D0B09 r1.2).bind (fun r2 =>
    (readU32 distr0x200D0B09 r2.2).bind (fun r3 =>
    (ReadMetadata r3.2).bind (fun r4 =>
    (ReadPreview r4.2).bind (fun r5 =>
    (ReadAnimation r5.2).bind (fun r6 =>
    (readExtensions r6.2).bind (fun r7 =>
    some ({ signature := r1.1, xsize_minus_1 := r2.1, ysize_minus_1 := r3.1,
            metadata := r4.1, preview := r5.1, animation := r6.1,
            extensions := r7.1 }, r7.2)))))))
  else none)

def wfFile (f : FileHeader) : Prop :=
  wfMeta f.metadata ∧ wfPreview f.preview ∧ wfAnimation f.animation

theorem ReadFileHeader_WriteFileHeader (f : FileHeader) (bits rest : List Bool)
    (hwf : wfFile f) (hw : WriteFileHeader f = some bits) :
    ReadFileHeader (bits ++ rest) = some (f, rest) := by
  obtain ⟨hmeta, hprev, hanim⟩ := hwf
  simp only [WriteFileHeader] at hw
  by_cases hs : f.signature = kSignature
  · rw [if_pos hs] at hw
    obtain ⟨x1, y1, hx1, hy1, rfl⟩ := wapp_eq_some _ _ _ hw
    obtain ⟨x2, y2, hx2, hy2, rfl⟩ := wapp_eq_some _ _ _ hy1
    obtain ⟨x3, y3, hx3, hy3, rfl⟩ := wapp_eq_some _ _ _ hy2
    obtain ⟨x4, y4, hx4, hy4, rfl⟩ := wapp_eq_some _ _ _ hy3
    obtain ⟨x5, y5, hx5, hy5, rfl⟩ := wapp_eq_some _ _ _ hy4
    obtain ⟨x6, x7, hx6, hx7, rfl⟩ := wapp_eq_some _ _ _ hy5
    simp only [ReadFileHeader, List.append_assoc]
    rw [readU32_writeU32 _ _ _ _ (by trivial) hx1]
    simp only [obind_some]
    rw [if_pos hs]
    rw [readU32_writeU32 _ _ _ _ (by simp [distr0x200D0B09]) hx2]
    simp only [obind_some]
    rw [readU32_writeU32 _ _ _ _ (by simp [distr0x200D0B09]) hx3]
    simp only [obind_some]
    rw [ReadMetadata_WriteMetadata _ _ _ hmeta hx4]
    simp only [obind_some]
    rw [ReadPreview_WritePreview _ _ _ hprev hx5]
    simp only [obind_some]
    rw [ReadAnimation_WriteAnimation _ _ _ hanim hx6]
    simp only [obind_some]
    rw [readExtensions_writeExtensions _ _ _ hx7]
    simp only [obind_some]
  · rw [if_neg hs] at hw
    exact absurd hw (by simp)

--------------------------------------------------------------------------------
-- CanEncode: the size/validity oracle (src/headers.h lines 380-389).  A
-- separate counting pass over the same field lists; spec section 4.4: a dry
-- run of the encode-direction visitor that counts bits instead of writing
-- them.  It must agree exactly with the writers above.

def addOpt (a b : Option Nat) : Option Nat :=
  match a, b with
  | some x, some y => some (x + y)
  | _, _ => none

theorem map_len_wapp (a b : Option (List Bool)) (sa sb : Option Nat)
    (ha : sa = a.map List.length) (hb : sb = b.map List.length) :
    addOpt sa sb = (wapp a b).map List.length := by
  subst ha; subst hb
  match a, b with
  | some x, some y => simp [wapp, addOpt]
  | some x, none => simp [wapp, addOpt]
  | none, some y => simp [wapp, addOpt]
  | none, none => simp [wapp, addOpt]

def sizeU32 (d : U32Distr) (v : Nat) : Option Nat :=
  match d with
  | .raw n => if v < 2 ^ n then some n else none
  | .table alts =>
    match pickAlt alts v with
    | none => none
    | some (_, a) => some (2 + altBitCost a)

theorem sizeU32_agree (d : U32Distr) (v : Nat) :
    sizeU32 d v = (writeU32 d v).map List.length := by
  match d with
  | .raw n =>
    by_cases h : v < 2 ^ n <;> simp [sizeU32, writeU32, h, writeBits_length]
  | .table alts =>
    rcases hp : pickAlt alts v with _ | ⟨i, a⟩
    · simp [sizeU32, writeU32, hp]
    · match a with
      | .lit x => simp [sizeU32, writeU32, hp, altBitCost, writeBits_length]
      | .stored w o =>
        simp [sizeU32, writeU32, hp, altBitCost, writeBits_length]

def sizeU64Fuel : Nat → Nat → Nat
  | 0, _ => 0
  | fuel + 1, v => if v / 256 = 0 then 9 else 9 + sizeU64Fuel fuel (v / 256)

def sizeU64 (v : Nat) : Nat := sizeU64Fuel (v + 1) v

theorem sizeU64Fuel_adequate (fuel1 : Nat) :
    ∀ (fuel2 v : Nat), v < fuel1 → v < fuel2 →
      sizeU64Fuel fuel1 v = sizeU64Fuel fuel2 v := by
  induction fuel1 with
  | zero => omega
  | succ f ih =>
    intro fuel2 v h1 h2
    match fuel2 with
    | 0 => omega
    | f2 + 1 =>
      simp only [sizeU64Fuel]
      by_cases h : v / 256 = 0
      · simp [h]
      · have hlt : v / 256 < v := Nat.div_lt_self (by omega) (by omega)
        simp [h, ih f2 (v / 256) (by omega) (by omega)]

theorem sizeU64_eq (v : Nat) :
    sizeU64 v = if v / 256 = 0 then 9 else 9 + sizeU64 (v / 256) := by
  show sizeU64Fuel (v + 1) v = _
  simp only [sizeU64Fuel]
  by_cases h : v / 256 = 0
  · simp [h]
  · have hlt : v / 256 < v := Nat.div_lt_self (by omega) (by omega)
    simp only [h, if_false]
    rw [sizeU64Fuel_adequate v (v / 256 + 1) (v / 256) (by omega) (by omega)]
    rfl

theorem sizeU64_agree (v : Nat) : sizeU64 v = (writeU64 v).length := by
  induction v using Nat.strong_induction_on with
  | _ v ih =>
    rw [sizeU64_eq, writeU64_eq]
    by_cases h : v / 256 = 0
    · simp [h, writeBits_length]
    · have hlt : v / 256 < v :=
        Nat.div_lt_self (Nat.pos_of_ne_zero (by omega)) (by omega)
      simp [h, writeBits_length, ih (v / 256) hlt]
      omega

def sizeByteSeq : List Nat → Nat
  | [] => 0
  | _ :: bs => 8 + sizeByteSeq bs

theorem sizeByteSeq_agree (bs : List Nat) : sizeByteSeq bs = (writeByteSeq bs).length := by
  induction bs with
  | nil => rfl
  | cons b tl ih => simp [sizeByteSeq, writeByteSeq, writeBits_length, ih]

def sizeBytes (bs : List Nat) : Option Nat :=
  if bs.all (· < 256) then some (sizeU64 bs.length + sizeByteSeq bs) else none

theorem sizeBytes_agree (bs : List Nat) :
    sizeBytes bs = (writeBytes bs).map List.length := by
  by_cases h : bs.all (· < 256) <;>
    simp [sizeBytes, writeBytes, h, sizeU64_agree, sizeByteSeq_agree]

def sizeExtensions (ext : Nat) : Option Nat :=
  match (if ext == 0 then some 0 else sizeU32 kExtensionBitsDistr 0) with
  | none => none
  | some t => some (sizeU64 ext + t)

theorem sizeExtensions_agree (ext : Nat) :
    sizeExtensions ext = (writeExtensions ext).map List.length := by
  by_cases h : ext == 0
  · simp [sizeExtensions, writeExtensions, h, sizeU64_agree]
  · have := sizeU32_agree kExtensionBitsDistr 0
    rcases hz : writeU32 kExtensionBitsDistr 0 with _ | z
    · rw [hz] at this
      simp [sizeExtensions, writeExtensions, h, hz, this]
    · rw [hz] at this
      simp [sizeExtensions, writeExtensions, h, hz, this, sizeU64_agree]

def sizeCoordSeq : List Nat → Option Nat
  | [] => some 0
  | c :: cs => addOpt (sizeU32 (.raw 8) c) (sizeCoordSeq cs)

theorem sizeCoordSeq_agree (cs : List Nat) :
    sizeCoordSeq cs = (writeCoordSeq cs).map List.length := by
  induction cs with
  | nil => rfl
  | cons c tl ih =>
    simp only [sizeCoordSeq, writeCoordSeq]
    exact map_len_wapp _ _ _ _ (sizeU32_agree _ c) ih

def sizePTP (p : ProjectiveTransformParams) : Option Nat :=
  if p.corner_coords.length == 8 then sizeCoordSeq p.corner_coords else none

theorem sizePTP_agree (p : ProjectiveTransformParams) :
    sizePTP p = (WritePTP p).map List.length := by
  by_cases h : p.corner_coords.length == 8 <;>
    simp [sizePTP, WritePTP, h, sizeCoordSeq_agree]

theorem map_len_prependBit (a : Option (List Bool)) (sa : Option Nat)
    (ha : sa = a.map List.length) :
    (match sa with | none => none | some n => some (1 + n)) =
      (match a with
       | none => none
       | some bs => some ((false : Bool) :: bs)).map List.length := by
  subst ha
  cases a <;> simp
  omega

def sizeTileBody (t : TileHeader) : Option Nat :=
  addOpt (some 1)
    (if t.have_projective_transform then sizePTP t.projective_transform_params
     else some 0)

theorem sizeTileBody_agree (t : TileHeader) :
    sizeTileBody t = (WriteTileBody t).map List.length := by
  refine map_len_wapp _ _ _ _ (by simp) ?_
  by_cases h : t.have_projective_transform <;> simp [h, sizePTP_agree]

def sizeTile (t : TileHeader) : Option Nat :=
  if tileAllDefaultQ t then some 1
  else
    match addOpt (sizeTileBody t) (sizeExtensions t.extensions) with
    | none => none
    | some n => some (1 + n)

theorem sizeTile_agree (t : TileHeader) :
    sizeTile t = (WriteTileHeader t).map List.length := by
  by_cases hq : tileAllDefaultQ t
  · simp [sizeTile, WriteTileHeader, hq]
  · simp only [sizeTile, WriteTileHeader, hq, if_false, Bool.false_eq_true]
    exact map_len_prependBit _ _
      (map_len_wapp _ _ _ _ (sizeTileBody_agree t) (sizeExtensions_agree _))

/-- `CanEncode(const TileHeader&, ...)`: extension bits and exact total. -/
def CanEncodeTile (t : TileHeader) : Option (Nat × Nat) :=
  match sizeTile t with
  | none => none
  | some n => some (0, n)

def sizeAlpha (a : Alpha) : Option Nat :=
  addOpt (sizeU32 kU32Direct3Plus4 a.bytes_per_alpha) (sizeBytes a.encoded)

theorem sizeAlpha_agree (a : Alpha) :
    sizeAlpha a = (WriteAlpha a).map List.length :=
  map_len_wapp _ _ _ _ (sizeU32_agree _ _) (sizeBytes_agree _)

def sizeTileSeq : List TileHeader → Option Nat
  | [] => some 0
  | t :: ts => addOpt (sizeTile t) (sizeTileSeq ts)

theorem sizeTileSeq_agree (ts : List TileHeader) :
    sizeTileSeq ts = (writeTileSeq ts).map List.length := by
  induction ts with
  | nil => rfl
  | cons t tl ih =>
    exact map_len_wapp _ _ _ _ (sizeTile_agree t) ih

def sizeGroupBody (g : GroupHeader) : Option Nat :=
  addOpt (if g.nonserialized_have_alpha then sizeAlpha g.alpha else some 0)
    (sizeTileSeq g.tile_headers)

theorem sizeGroupBody_agree (g : GroupHeader) :
    sizeGroupBody g = (WriteGroupBody g).map List.length := by
  refine map_len_wapp _ _ _ _ ?_ (sizeTileSeq_agree _)
  by_cases h : g.nonserialized_have_alpha <;> simp [h, sizeAlpha_agree]

def sizeGroup (g : GroupHeader) : Option Nat :=
  if groupAllDefaultQ g then some 1
  else
    match addOpt (sizeGroupBody g) (sizeExtensions g.extensions) with
    | none => none
    | some n => some (1 + n)

theorem sizeGroup_agree (g : GroupHeader) :
    sizeGroup g = (WriteGroupHeader g).map List.length := by
  by_cases hq : groupAllDefaultQ g
  · simp [sizeGroup, WriteGroupHeader, hq]
  · simp only [sizeGroup, WriteGroupHeader, hq, if_false, Bool.false_eq_true]
    exact map_len_prependBit _ _
      (map_len_wapp _ _ _ _ (sizeGroupBody_agree g) (sizeExtensions_agree _))

def CanEncodeGroup (g : GroupHeader) : Option (Nat × Nat) :=
  match sizeGroup g with
  | none => none
  | some n => some (0, n)

def sizeFrameBody (f : FrameInfo) : Option Nat :=
  addOpt (sizeU32 distr0x20088180 f.duration)
  (addOpt (some 1)
  (addOpt (if f.have_timecode then sizeU32 (.raw 32) f.timecode else some 0)
          (some 1)))

theorem sizeFrameBody_agree (f : FrameInfo) :
    sizeFrameBody f = (WriteFrameBody f).map List.length := by
  refine map_len_wapp _ _ _ _ (sizeU32_agree _ _) ?_
  refine map_len_wapp _ _ _ _ (by simp) ?_
  refine map_len_wapp _ _ _ _ ?_ (by simp)
  by_cases h : f.have_timecode <;> simp [h, sizeU32_agree]

def sizeFrame (f : FrameInfo) : Option Nat :=
  if frameAllDefaultQ f then some 1
  else
    match sizeFrameBody f with
    | none => none
    | some n => some (1 + n)

theorem sizeFrame_agree (f : FrameInfo) :
    sizeFrame f = (WriteFrameInfo f).map List.length := by
  by_cases hq : frameAllDefaultQ f
  · simp [sizeFrame, WriteFrameInfo, hq]
  · simp only [sizeFrame, WriteFrameInfo, hq, if_false, Bool.false_eq_true]
    exact map_len_prependBit _ _ (sizeFrameBody_agree f)

def sizeEpf (e : EpfParams) : Option Nat :=
  if epfAllDefaultQ e then some 1
  else
    match sizeU32 kEpfStrengthDistr e.strength with
    | none => none
    | some n => some (1 + n)

theorem sizeEpf_agree (e : EpfParams) :
    sizeEpf e = (WriteEpfParams e).map List.length := by
  by_cases hq : epfAllDefaultQ e
  · simp [sizeEpf, WriteEpfParams, hq]
  · simp only [sizeEpf, WriteEpfParams, hq, if_false, Bool.false_eq_true]
    exact map_len_prependBit _ _ (sizeU32_agree _ _)

def sizePreview (p : Preview) : Option Nat :=
  if previewAllDefaultQ p then some 1
  else
    match addOpt (sizeU32 distr0x1C14100C p.size_bits)
          (addOpt (sizeU32 distr0x0D0B0907 p.xsize)
                  (sizeU32 distr0x0D0B0907 p.ysize)) with
    | none => none
    | some n => some (1 + n)

theorem sizePreview_agree (p : Preview) :
    sizePreview p = (WritePreview p).map List.length := by
  by_cases hq : previewAllDefaultQ p
  · simp [sizePreview, WritePreview, hq]
  · simp only [sizePreview, WritePreview, hq, if_false, Bool.false_eq_true]
    exact map_len_prependBit _ _
      (map_len_wapp _ _ _ _ (sizeU32_agree _ _)
        (map_len_wapp _ _ _ _ (sizeU32_agree _ _) (sizeU32_agree _ _)))

def sizeAnimation (a : Animation) : Option Nat :=
  if animationAllDefaultQ a then some 1
  else
    match addOpt (sizeU32 distr0x20100380 a.num_loops)
          (addOpt (sizeU32 distr0x20140981 a.ticks_numerator)
                  (sizeU32 distr0x20140981 a.ticks_denominator)) with
    | none => none
    | some n => some (1 + n)

theorem sizeAnimation_agree (a : Animation) :
    sizeAnimation a = (WriteAnimation a).map List.length := by
  by_cases hq : animationAllDefaultQ a
  · simp [sizeAnimation, WriteAnimation, hq]
  · simp only [sizeAnimation, WriteAnimation, hq, if_false, Bool.false_eq_true]
    exact map_len_prependBit _ _
      (map_len_wapp _ _ _ _ (sizeU32_agree _ _)
        (map_len_wapp _ _ _ _ (sizeU32_agree _ _) (sizeU32_agree _ _)))

def sizeMeta (m : Metadata) : Option Nat :=
  if metaAllDefaultQ m then some 1
  else
    match addOpt (sizeBytes m.exif) (addOpt (sizeBytes m.iptc) (sizeBytes m.xmp)) with
    | none => none
    | some n => some (1 + n)

theorem sizeMeta_agree (m : Metadata) :
    sizeMeta m = (WriteMetadata m).map List.length := by
  by_cases hq : metaAllDefaultQ m
  · simp [sizeMeta, WriteMetadata, hq]
  · simp only [sizeMeta, WriteMetadata, hq, if_false, Bool.false_eq_true]
    exact map_len_prependBit _ _
      (map_len_wapp _ _ _ _ (sizeBytes_agree _)
        (map_len_wapp _ _ _ _ (sizeBytes_agree _) (sizeBytes_agree _)))

def sizePassCond0 (p : PassHeader) : Option Nat :=
  addOpt (sizeU32 distr0x20181008 p.flags)
  (addOpt (sizeU32 kU32Direct3Plus4 p.gaborish)
  (addOpt (some 1)
  (addOpt (some 1)
  (addOpt (some 1)
          (if p.have_adaptive_reconstruction then sizeEpf p.epf_params
           else some 0)))))

theorem sizePassCond0_agree (p : PassHeader) :
    sizePassCond0 p = (WritePassCond0 p).map List.length := by
  refine map_len_wapp _ _ _ _ (sizeU32_agree _ _) ?_
  refine map_len_wapp _ _ _ _ (sizeU32_agree _ _) ?_
  refine map_len_wapp _ _ _ _ (by simp) ?_
  refine map_len_wapp _ _ _ _ (by simp) ?_
  refine map_len_wapp _ _ _ _ (by simp) ?_
  by_cases h : p.have_adaptive_reconstruction <;> simp [h, sizeEpf_agree]

def sizeGroupSizeSeq : List Nat → Option Nat
  | [] => some 0
  | n :: ns => addOpt (sizeU32 distr0x150F0E0C n) (sizeGroupSizeSeq ns)

theorem sizeGroupSizeSeq_agree (ns : List Nat) :
    sizeGroupSizeSeq ns = (writeGroupSizeSeq ns).map List.length := by
  induction ns with
  | nil => rfl
  | cons n tl ih => exact map_len_wapp _ _ _ _ (sizeU32_agree _ _) ih

def sizePassTOC (p : PassHeader) : Option Nat :=
  addOpt (sizeU32 kU32Direct2348 p.resampling_factor2)
         (sizeGroupSizeSeq p.group_sizes)

theorem sizePassTOC_agree (p : PassHeader) :
    sizePassTOC p = (WritePassTOC p).map List.length :=
  map_len_wapp _ _ _ _ (sizeU32_agree _ _) (sizeGroupSizeSeq_agree _)

def sizePass (p : PassHeader) : Option Nat :=
  addOpt (some (sizeU64 p.size))
  (addOpt (some 1)
  (addOpt (some 1)
  (addOpt (if p.is_last then sizeFrame p.frame else some 0)
  (addOpt (sizeU32 kU32Direct3Plus4 p.encoding)
  (addOpt (if p.encoding = kPasses then sizePassCond0 p else some 0)
  (addOpt (if p.encoding ≠ kProgressive then sizePassTOC p else some 0)
  (addOpt (if p.encoding = kLossless then some 2 else some 0)
          (sizeExtensions p.extensions))))))))

theorem sizePass_agree (p : PassHeader) :
    sizePass p = (WritePassHeader p).map List.length := by
  refine map_len_wapp _ _ _ _ (by simp [sizeU64_agree]) ?_
  refine map_len_wapp _ _ _ _ (by simp) ?_
  refine map_len_wapp _ _ _ _ (by simp) ?_
  refine map_len_wapp _ _ _ _ ?_ ?_
  · by_cases h : p.is_last <;> simp [h, sizeFrame_agree]
  refine map_len_wapp _ _ _ _ (sizeU32_agree _ _) ?_
  refine map_len_wapp _ _ _ _ ?_ ?_
  · by_cases h : p.encoding = kPasses <;> simp [h, sizePassCond0_agree]
  refine map_len_wapp _ _ _ _ ?_ ?_
  · by_cases h : p.encoding = kProgressive <;> simp [h, sizePassTOC_agree]
  refine map_len_wapp _ _ _ _ ?_ (sizeExtensions_agree _)
  by_cases h : p.encoding = kLossless <;> simp [h]

def CanEncodePass (p : PassHeader) : Option (Nat × Nat) :=
  match sizePass p with
  | none => none
  | some n => some (0, n)

def sizeFile (f : FileHeader) : Option Nat :=
  if f.signature = kSignature then
    addOpt (sizeU32 (.raw 32) f.signature)
    (addOpt (sizeU32 distr0x200D0B09 f.xsize_minus_1)
    (addOpt (sizeU32 distr0x200D0B09 f.ysize_minus_1)
    (addOpt (sizeMeta f.metadata)
    (addOpt (sizePreview f.preview)
    (addOpt (sizeAnimation f.animation)
            (sizeExtensions f.extensions))))))
  else none

theorem sizeFile_agree (f : FileHeader) :
    sizeFile f = (WriteFileHeader f).map List.length := by
  by_cases hs : f.signature = kSignature
  · simp only [sizeFile, WriteFileHeader, hs, if_true]
    refine map_len_wapp _ _ _ _ (sizeU32_agree _ _) ?_
    refine map_len_wapp _ _ _ _ (sizeU32_agree _ _) ?_
    refine map_len_wapp _ _ _ _ (sizeU32_agree _ _) ?_
    refine map_len_wapp _ _ _ _ (sizeMeta_agree _) ?_
    refine map_len_wapp _ _ _ _ (sizePreview_agree _) ?_
    exact map_len_wapp _ _ _ _ (sizeAnimation_agree _) (sizeExtensions_agree _)
  · simp [sizeFile, WriteFileHeader, hs]

def CanEncodeFile (f : FileHeader) : Option (Nat × Nat) :=
  match sizeFile f with
  | none => none
  | some n => some (0, n)

--------------------------------------------------------------------------------
-- PNG metadata adapter (src/codec_png.cc).  Characters and bytes are Nat
-- (ASCII codes / u8 values); C strings become `List Nat`.

/-- `MetadataReaderPNG::DecodeNibble` (codec_png.cc lines 70-82): lowercase
hex only; anything else is a failure. -/
def DecodeNibble (c : Nat) : Option Nat :=
  if 97 ≤ c ∧ c ≤ 102 then some (10 + c - 97)
  else if 48 ≤ c ∧ c ≤ 57 then some (c - 48)
  else none

/-- `MetadataWriterPNG::EncodeNibble` (codec_png.cc lines 153-156). -/
def EncodeNibble (n : Nat) : Nat :=
  if n < 10 then 48 + n else 97 + n - 10

/-- One byte as written by `EncodeBase16` (lines 167-168): low nibble first,
then high nibble. -/
def encodeBytePair (b : Nat) : List Nat :=
  [EncodeNibble (b % 16), EncodeNibble (b / 16)]

/-- One byte as read by `DecodeBase16` (lines 116-119):
`(nibble1 << 4) + nibble0`. -/
def decodeBytePair (c0 c1 : Nat) : Option Nat :=
  (DecodeNibble c0).bind (fun n0 =>
  (DecodeNibble c1).bind (fun n1 =>
  some (n1 * 16 + n0)))

/-- Base16 payload with a newline before every 36th byte
(`if (i % 36 == 0) base16.push_back('\n')`, line 166). -/
def base16Body : Nat → List Nat → List Nat
  | _, [] => []
  | i, b :: bs =>
    (if i % 36 == 0 then [10] else []) ++ encodeBytePair b ++ base16Body (i + 1) bs

/-- Decimal digits of `n`, most significant first (fuel-based so that the
definition reduces in the kernel; `n + 1` steps always suffice). -/
def decDigitsFuel : Nat → Nat → List Nat
  | 0, _ => []
  | fuel + 1, n =>
    if n < 10 then [48 + n] else decDigitsFuel fuel (n / 10) ++ [48 + n % 10]

def decDigits (n : Nat) : List Nat := decDigitsFuel (n + 1) n

theorem decDigitsFuel_adequate (fuel1 : Nat) :
    ∀ (fuel2 n : Nat), n < fuel1 → n < fuel2 →
      decDigitsFuel fuel1 n = decDigitsFuel fuel2 n := by
  induction fuel1 with
  | zero => omega
  | succ f ih =>
    intro fuel2 n h1 h2
    match fuel2 with
    | 0 => omega
    | f2 + 1 =>
      simp only [decDigitsFuel]
      by_cases h : n < 10
      · simp [h]
      · have hlt : n / 10 < n := Nat.div_lt_self (by omega) (by omega)
        simp [h, ih f2 (n / 10) (by omega) (by omega)]

theorem decDigits_eq (n : Nat) :
    decDigits n = if n < 10 then [48 + n] else decDigits (n / 10) ++ [48 + n % 10] := by
  show decDigitsFuel (n + 1) n = _
  simp only [decDigitsFuel]
  by_cases h : n < 10
  · simp [h]
  · have hlt : n / 10 < n := Nat.div_lt_self (by omega) (by omega)
    simp only [h, if_false]
    rw [decDigitsFuel_adequate n (n / 10 + 1) (n / 10) (by omega) (by omega)]
    rfl

/-- `%8lu`: printf pads the decimal to (at least) width 8 with spaces. -/
def padSpaces8 (ds : List Nat) : List Nat :=
  List.replicate (8 - ds.length) 32 ++ ds

/-- ASCII codes of "Raw profile type " (17 characters). -/
def kRawProfileKeyChars : List Nat :=
  [82, 97, 119, 32, 112, 114, 111, 102, 105, 108, 101, 32, 116, 121, 112, 101, 32]

/-- The text-chunk key written by `EncodeBase16` (line 174):
`"Raw profile type %s"`. -/
def mdKey (ty : List Nat) : List Nat := kRawProfileKeyChars ++ ty

/-- `MetadataWriterPNG::EncodeBase16` (lines 158-185), as the (key-independent)
encoded string: header `"\n%s\n%8lu"` followed by the base16 payload and a
final newline. -/
def EncodeBase16 (ty : List Nat) (bytes : List Nat) : List Nat :=
  (10 :: ty ++ 10 :: padSpaces8 (decDigits bytes.length)) ++
    (base16Body 0 bytes ++ [10])

/-- scanf whitespace class. -/
def isScanfWS (c : Nat) : Bool :=
  c == 32 || c == 9 || c == 10 || c == 11 || c == 12 || c == 13

def skipWS : List Nat → List Nat
  | [] => []
  | c :: cs => if isScanfWS c then skipWS cs else c :: cs

/-- Match the literal characters of the scanf format. -/
def expectChars : List Nat → List Nat → Option (List Nat)
  | [], s => some s
  | _ :: _, [] => none
  | e :: es, c :: cs => if c == e then expectChars es cs else none

def isDigit (c : Nat) : Bool := decide (48 ≤ c) && decide (c ≤ 57)

def parseDigitsGo : Nat → Nat → List Nat → Nat × List Nat
  | 0, acc, s => (acc, s)
  | fuel + 1, acc, s =>
    match s with
    | [] => (acc, [])
    | c :: cs =>
      if isDigit c then parseDigitsGo fuel (acc * 10 + (c - 48)) cs
      else (acc, c :: cs)

/-- `%8lu`: skip whitespace, then read 1 to 8 decimal digits. -/
def parseU8lu (s : List Nat) : Option (Nat × List Nat) :=
  match skipWS s with
  | [] => none
  | c :: cs => if isDigit c then some (parseDigitsGo 7 (c - 48) cs) else none

/-- The `sscanf(encoded, "\n%s\n%8lu%n", ...)` of `DecodeBase16` (lines
96-102), with `%n` modelled by returning the unconsumed remainder: a scanf
literal `'\n'` matches any whitespace run (possibly empty), then the type
literally, then whitespace, then the byte count. -/
def parseMetaHeader (ty : List Nat) (encoded : List Nat) : Option (Nat × List Nat) :=
  match expectChars ty (skipWS encoded) with
  | none => none
  | some s1 => parseU8lu s1

/-- The byte-decoding loop of `DecodeBase16` (lines 107-124): `r` counts the
bytes still to decode, `i` the bytes decoded so far; on every 36th byte a
newline is expected; after the loop exactly one character, a newline, must
remain. -/
def b16loop : Nat → Nat → List Nat → Option (List Nat)
  | _, 0, s =>
    match s with
    | [c] => if c == 10 then some [] else none
    | _ => none
  | i, r + 1, s =>
    match (if i % 36 == 0 then
             match s with
             | c :: s2 => if c == 10 && !s2.isEmpty then some s2 else none
             | [] => none
           else some s) with
    | none => none
    | some s1 =>
      match s1 with
      | c0 :: c1 :: rest2 =>
        if rest2.isEmpty then none
        else
          match decodeBytePair c0 c1 with
          | none => none
          | some b =>
            match b16loop (i + 1) r rest2 with
            | none => none
            | some bs => some (b :: bs)
      | _ => none

/-- `MetadataReaderPNG::DecodeBase16` (lines 86-125): returns the type and
the decoded bytes, `none` both for "not a raw-profile chunk" and for the
hard failures. -/
def DecodeBase16 (key encoded : List Nat) : Option (List Nat × List Nat) :=
  if key.take 17 == kRawProfileKeyChars then
    if (key.drop 17).length > 20 then none
    else
      match parseMetaHeader (key.drop 17) encoded with
      | none => none
      | some (n, s1) =>
        match b16loop 0 n s1 with
        | none => none
        | some bs => some (key.drop 17, bs)
  else none

/-- `ColorEncodingReaderPNG::DecodeEXIF` (codec_png.cc lines 338-345): keep
the larger of the stored and incoming EXIF payloads. -/
def DecodeEXIF (payload : List Nat) (metadata : Metadata) : Metadata :=
  if metadata.exif.length > payload.length then metadata
  else { metadata with exif := payload }

theorem DecodeNibble_EncodeNibble : ∀ n, n < 16 → DecodeNibble (EncodeNibble n) = some n := by
  decide

theorem decodeBytePair_encodeBytePair (b : Nat) (hb : b < 256) :
    decodeBytePair (EncodeNibble (b % 16)) (EncodeNibble (b / 16)) = some b := by
  have h0 : b % 16 < 16 := Nat.mod_lt _ (by omega)
  have h1 : b / 16 < 16 := by omega
  simp only [decodeBytePair, DecodeNibble_EncodeNibble _ h0,
    DecodeNibble_EncodeNibble _ h1, obind_some]
  congr 1
  omega

theorem b16loop_base16Body (bytes : List Nat) (i : Nat)
    (hb : ∀ b ∈ bytes, b < 256) :
    b16loop i bytes.length (base16Body i bytes ++ [10]) = some bytes := by
  induction bytes generalizing i with
  | nil => simp [base16Body, b16loop]
  | cons b bs ih =>
    have hblt : b < 256 := hb b (by simp)
    have hbs : ∀ x ∈ bs, x < 256 := fun x hx => hb x (by simp [hx])
    have htail : ¬(base16Body (i + 1) bs ++ [10]).isEmpty := by
      cases base16Body (i + 1) bs <;> simp
    simp only [base16Body, List.length_cons, encodeBytePair, List.append_assoc,
      List.cons_append, List.nil_append]
    by_cases hi : i % 36 == 0
    · simp [b16loop, hi, decodeBytePair_encodeBytePair b hblt, ih (i + 1) hbs]
    · simp [b16loop, hi, decodeBytePair_encodeBytePair b hblt, ih (i + 1) hbs]

theorem decDigits_all_digits (n : Nat) : ∀ d ∈ decDigits n, isDigit d = true := by
  induction n using Nat.strong_induction_on with
  | _ n ih =>
    rw [decDigits_eq]
    by_cases h : n < 10
    · simp only [h, if_pos]
      intro d hd
      simp only [List.mem_singleton] at hd
      subst hd
      simp [isDigit]
      omega
    · rw [if_neg h]
      intro d hd
      rcases List.mem_append.mp hd with h1 | h2
      · exact ih (n / 10) (Nat.div_lt_self (by omega) (by omega)) d h1
      · simp only [List.mem_singleton] at h2
        subst h2
        have : n % 10 < 10 := Nat.mod_lt _ (by omega)
        simp [isDigit]
        omega

theorem decDigits_ne_nil (n : Nat) : decDigits n ≠ [] := by
  rw [decDigits_eq]
  by_cases h : n < 10 <;> simp [h]

theorem decDigits_length_le (k : Nat) : ∀ n, n < 10 ^ (k + 1) → (decDigits n).length ≤ k + 1 := by
  induction k with
  | zero =>
    intro n hn
    rw [decDigits_eq, if_pos (by omega)]
    simp
  | succ k ih =>
    intro n hn
    rw [decDigits_eq]
    by_cases h : n < 10
    · simp [h]
    · rw [if_neg h]
      simp only [List.length_append, List.length_cons, List.length_nil]
      have h10 : n / 10 < 10 ^ (k + 1) := by
        rw [pow_succ] at hn
        omega
      have := ih (n / 10) h10
      omega

/-- The stream right after a run of digits does not continue with a digit. -/
def headNotDigit (l : List Nat) : Prop :=
  match l with
  | [] => True
  | c :: _ => isDigit c = false

theorem parseDigitsGo_spec (ds : List Nat) (fuel acc : Nat) (rest : List Nat)
    (hd : ∀ d ∈ ds, isDigit d = true) (hf : ds.length ≤ fuel)
    (hrest : headNotDigit rest) :
    parseDigitsGo fuel acc (ds ++ rest) =
      (ds.foldl (fun a d => a * 10 + (d - 48)) acc, rest) := by
  induction ds generalizing fuel acc with
  | nil =>
    simp only [List.nil_append, List.foldl_nil]
    match fuel, rest with
    | 0, _ => rfl
    | f + 1, [] => rfl
    | f + 1, c :: cs =>
      simp only [headNotDigit] at hrest
      simp [parseDigitsGo, hrest]
  | cons d tl ih =>
    match fuel with
    | 0 => simp at hf
    | f + 1 =>
      have hd0 : isDigit d = true := hd d (by simp)
      have hf2 : tl.length ≤ f := by
        simp only [List.length_cons] at hf
        omega
      simp only [List.cons_append, parseDigitsGo, hd0, if_true, List.foldl_cons]
      exact ih f (acc * 10 + (d - 48)) (fun x hx => hd x (List.mem_cons_of_mem d hx)) hf2

theorem decDigits_foldl (n : Nat) : ∀ acc,
    (decDigits n).foldl (fun a d => a * 10 + (d - 48)) acc =
      acc * 10 ^ (decDigits n).length + n := by
  induction n using Nat.strong_induction_on with
  | _ n ih =>
    intro acc
    rw [decDigits_eq]
    by_cases h : n < 10
    · rw [if_pos h]
      simp only [List.foldl_cons, List.foldl_nil, List.length_singleton]
      omega
    · rw [if_neg h]
      simp only [List.foldl_append, List.foldl_cons, List.foldl_nil,
        List.length_append, List.length_cons, List.length_nil]
      rw [ih (n / 10) (Nat.div_lt_self (by omega) (by omega)) acc]
      have hpow : 10 ^ ((decDigits (n / 10)).length + (0 + 1)) =
          10 ^ (decDigits (n / 10)).length * 10 := by
        rw [Nat.add_comm 0 1, pow_succ]
      rw [hpow]
      have hsub : 48 + n % 10 - 48 = n % 10 := by omega
      rw [hsub, ← mul_assoc]
      generalize acc * 10 ^ (decDigits (n / 10)).length = M
      omega

theorem skipWS_cons_ws (c : Nat) (l : List Nat) (h : isScanfWS c = true) :
    skipWS (c :: l) = skipWS l := by
  simp [skipWS, h]

theorem skipWS_cons_not_ws (c : Nat) (l : List Nat) (h : isScanfWS c = false) :
    skipWS (c :: l) = c :: l := by
  simp [skipWS, h]

theorem skipWS_replicate_space (k : Nat) (l : List Nat) :
    skipWS (List.replicate k 32 ++ l) = skipWS l := by
  induction k with
  | zero => simp
  | succ k ih => simpa [List.replicate_succ, skipWS, isScanfWS] using ih

theorem expectChars_self (ty rest : List Nat) :
    expectChars ty (ty ++ rest) = some rest := by
  induction ty with
  | nil => rfl
  | cons t tl ih => simp [expectChars, ih]

theorem digit_not_ws (c : Nat) (h : isDigit c = true) : isScanfWS c = false := by
  simp only [isDigit, Bool.and_eq_true, decide_eq_true_eq] at h
  simp only [isScanfWS]
  simp only [Bool.or_eq_false_iff, beq_eq_false_iff_ne]
  omega

theorem parseU8lu_decDigits (n : Nat) (rest : List Nat)
    (hn : n < 10 ^ 8) (hrest : headNotDigit rest) :
    parseU8lu (padSpaces8 (decDigits n) ++ rest) = some (n, rest) := by
  rcases hds : decDigits n with _ | ⟨d0, dtl⟩
  · exact absurd hds (decDigits_ne_nil n)
  · have hdig : ∀ d ∈ decDigits n, isDigit d = true := decDigits_all_digits n
    have hd0 : isDigit d0 = true := hdig d0 (by simp [hds])
    have hlen : (decDigits n).length ≤ 8 := decDigits_length_le 7 n hn
    have hdtl : dtl.length ≤ 7 := by
      rw [hds] at hlen
      simpa using hlen
    simp only [padSpaces8, hds, List.append_assoc, List.cons_append, parseU8lu,
      skipWS_replicate_space, skipWS_cons_not_ws d0 _ (digit_not_ws d0 hd0), hd0,
      if_true]
    rw [parseDigitsGo_spec dtl 7 (d0 - 48) rest
      (fun x hx => hdig x (by simp [hds, hx])) hdtl hrest]
    have hval := decDigits_foldl n 0
    rw [hds] at hval
    simp only [List.foldl_cons, Nat.zero_mul, Nat.zero_add] at hval
    rw [hval]

theorem parseMetaHeader_spec (t0 : Nat) (tt : List Nat) (n : Nat) (body : List Nat)
    (ht0 : isScanfWS t0 = false) (hn : n < 10 ^ 8) (hbody : headNotDigit body) :
    parseMetaHeader (t0 :: tt)
        ((10 :: (t0 :: tt) ++ 10 :: padSpaces8 (decDigits n)) ++ body) =
      some (n, body) := by
  simp only [List.cons_append, List.append_assoc, parseMetaHeader,
    skipWS_cons_ws 10 _ (by decide), skipWS_cons_not_ws t0 _ ht0]
  rw [show t0 :: (tt ++ (10 :: (padSpaces8 (decDigits n) ++ body))) =
      (t0 :: tt) ++ (10 :: (padSpaces8 (decDigits n) ++ body)) by simp]
  have hstep : parseU8lu (10 :: (padSpaces8 (decDigits n) ++ body)) =
      parseU8lu (padSpaces8 (decDigits n) ++ body) := by
    simp [parseU8lu, skipWS_cons_ws 10 _ (by decide)]
  rw [expectChars_self]
  show parseU8lu (10 :: (padSpaces8 (decDigits n) ++ body)) = some (n, body)
  rw [hstep]
  exact parseU8lu_decDigits n body hn hbody

/-- ASCII codes of "exif". -/
def asciiExif : List Nat := [101, 120, 105, 102]

/-- ASCII codes of "iptc". -/
def asciiIptc : List Nat := [105, 112, 116, 99]

theorem DecodeBase16_EncodeBase16 (ty bytes : List Nat)
    (hty : ty = asciiExif ∨ ty = asciiIptc)
    (hne : bytes ≠ []) (hlen : bytes.length < 10 ^ 8)
    (hb : ∀ b ∈ bytes, b < 256) :
    DecodeBase16 (mdKey ty) (EncodeBase16 ty bytes) = some (ty, bytes) := by
  have hbody : headNotDigit (base16Body 0 bytes ++ [10]) := by
    cases bytes with
    | nil => simp [base16Body, headNotDigit, isDigit]
    | cons b bs => simp [base16Body, headNotDigit, encodeBytePair, isDigit]
  rcases hty with rfl | rfl
  · simp only [DecodeBase16, mdKey, EncodeBase16, asciiExif]
    rw [if_pos (by decide), if_neg (by decide)]
    have hdrop : List.drop 17 (kRawProfileKeyChars ++ [101, 120, 105, 102]) =
        [101, 120, 105, 102] := by decide
    rw [hdrop]
    rw [parseMetaHeader_spec 101 [120, 105, 102] bytes.length _ (by decide) hlen hbody]
    simp [b16loop_base16Body bytes 0 hb]
  · simp only [DecodeBase16, mdKey, EncodeBase16, asciiIptc]
    rw [if_pos (by decide), if_neg (by decide)]
    have hdrop : List.drop 17 (kRawProfileKeyChars ++ [105, 112, 116, 99]) =
        [105, 112, 116, 99] := by decide
    rw [hdrop]
    rw [parseMetaHeader_spec 105 [112, 116, 99] bytes.length _ (by decide) hlen hbody]
    simp [b16loop_base16Body bytes 0 hb]

--------------------------------------------------------------------------------
-- Extension forward-compatibility: decoding a header whose extension region
-- carries a nonzero declared payload (as a future encoder would emit it).

theorem readExtensions_with_payload (ext k : Nat) (cbits payload rest : List Bool)
    (hne : ext ≠ 0) (hc : writeU32 kExtensionBitsDistr k = some cbits)
    (hp : payload.length = k) :
    readExtensions (writeU64 ext ++ (cbits ++ (payload ++ rest))) =
      some (ext, rest) := by
  have hbeq : (ext == 0) = false := by simp [hne]
  simp only [readExtensions, readU64_writeU64, hbeq, Bool.false_eq_true, if_false]
  rw [readU32_writeU32 _ _ _ _ (by simp [kExtensionBitsDistr]) hc]
  simp only [endExtensionsRead, Nat.not_lt_zero, if_false, Nat.sub_zero]
  rw [← hp, skipBits_append]

theorem extSkipTile (t : TileHeader) (k : Nat)
    (bodyBits cbits payload rest : List Bool)
    (hwf : wfTile t) (hne : t.extensions ≠ 0)
    (hbody : WriteTileBody t = some bodyBits)
    (hc : writeU32 kExtensionBitsDistr k = some cbits)
    (hp : payload.length = k) :
    ReadTileHeader
        ((false :: bodyBits) ++ (writeU64 t.extensions ++ (cbits ++ (payload ++ rest)))) =
      some (t, rest) := by
  obtain ⟨had, hdef, hptp⟩ := hwf
  have hq : tileAllDefaultQ t = false := by
    simp [tileAllDefaultQ, hne]
  simp only [ReadTileHeader, List.cons_append, readBool_cons, obind_some,
    Bool.false_eq_true, if_false]
  rw [ReadTileBody_WriteTileBody t bodyBits _ hptp hbody]
  simp only [obind_some]
  rw [readExtensions_with_payload t.extensions k cbits payload rest hne hc hp]
  simp only [obind_some]
  have hadf : t.all_default = false := by rw [had, hq]
  rcases t with ⟨ad, hptf, ptp, ext⟩
  simp only at hadf
  simp [hadf]

theorem extSkipGroup (g : GroupHeader) (k : Nat)
    (bodyBits cbits payload rest : List Bool)
    (hwf : wfGroup g) (hne : g.extensions ≠ 0)
    (hbody : WriteGroupBody g = some bodyBits)
    (hc : writeU32 kExtensionBitsDistr k = some cbits)
    (hp : payload.length = k) :
    ReadGroupHeader g.nonserialized_have_alpha
        ((false :: bodyBits) ++ (writeU64 g.extensions ++ (cbits ++ (payload ++ rest)))) =
      some (g, rest) := by
  obtain ⟨had, hdef, halpha, hlen, htiles⟩ := hwf
  have hq : groupAllDefaultQ g = false := by
    simp [groupAllDefaultQ, hne]
  obtain ⟨xa, xt, hxa, hxt, rfl⟩ := wapp_eq_some _ _ _ hbody
  simp only [ReadGroupHeader, List.cons_append, readBool_cons, obind_some,
    Bool.false_eq_true, if_false, List.append_assoc]
  have hadf : g.all_default = false := by rw [had, hq]
  by_cases ha : g.nonserialized_have_alpha
  · rw [if_pos (by simp [ha])] at hxa ⊢
    rw [ReadAlpha_WriteAlpha _ _ _ hxa]
    simp only [obind_some]
    rw [← hlen, readTileSeq_writeTileSeq _ _ _ htiles hxt]
    simp only [obind_some]
    rw [readExtensions_with_payload g.extensions k cbits payload rest hne hc hp]
    simp only [obind_some]
    rcases g with ⟨ad, nha, al, tls, ext⟩
    simp only at hadf ha
    simp [hadf, ha]
  · have haf : g.nonserialized_have_alpha = false := by simpa using ha
    rw [if_neg (by simp [haf])] at hxa ⊢
    obtain rfl : [] = xa := Option.some.injEq .. ▸ hxa
    simp only [List.nil_append, obind_some]
    rw [← hlen, readTileSeq_writeTileSeq _ _ _ htiles hxt]
    simp only [obind_some]
    rw [readExtensions_with_payload g.extensions k cbits payload rest hne hc hp]
    simp only [obind_some]
    rcases g with ⟨ad, nha, al, tls, ext⟩
    simp only at hadf haf
    simp only at halpha
    simp [hadf, haf, halpha haf]

/-- The fields of `PassHeader::VisitFields` preceding `BeginExtensions`. -/
def WritePassPrefix (p : PassHeader) : Option (List Bool) :=
  wapp (some (writeU64 p.size))
  (wapp (some [p.has_alpha])
  (wapp (some [p.is_last])
  (wapp (if p.is_last then WriteFrameInfo p.frame else some [])
  (wapp (writeU32 kU32Direct3Plus4 p.encoding)
  (wapp (if p.encoding = kPasses then WritePassCond0 p else some [])
  (wapp (if p.encoding ≠ kProgressive then WritePassTOC p else some [])
        (if p.encoding = kLossless then
           some [p.lossless_grayscale, p.lossless_16_bits]
         else some [])))))))

theorem extSkipPass (p : PassHeader) (k : Nat)
    (preBits cbits payload rest : List Bool)
    (hwf : wfPass p) (hne : p.extensions ≠ 0)
    (hpre : WritePassPrefix p = some preBits)
    (hc : writeU32 kExtensionBitsDistr k = some cbits)
    (hp : payload.length = k) :
    ReadPassHeader p.nonserialized_num_groups
        (preBits ++ (writeU64 p.extensions ++ (cbits ++ (payload ++ rest)))) =
      some (p, rest) := by
  obtain ⟨hvalid, hfr0, hfr1, hc0, hnc0, htoc, hprog, hnl⟩ := hwf
  obtain ⟨x1, y1, hx1, hy1, rfl⟩ := wapp_eq_some _ _ _ hpre
  obtain ⟨x2, y2, hx2, hy2, rfl⟩ := wapp_eq_some _ _ _ hy1
  obtain ⟨x3, y3, hx3, hy3, rfl⟩ := wapp_eq_some _ _ _ hy2
  obtain ⟨x4, y4, hx4, hy4, rfl⟩ := wapp_eq_some _ _ _ hy3
  obtain ⟨x5, y5, hx5, hy5, rfl⟩ := wapp_eq_some _ _ _ hy4
  obtain ⟨x6, y6, hx6, hy6, rfl⟩ := wapp_eq_some _ _ _ hy5
  obtain ⟨x7, x8, hx7, hx8, rfl⟩ := wapp_eq_some _ _ _ hy6
  obtain rfl : writeU64 p.size = x1 := Option.some.injEq .. ▸ hx1
  obtain rfl : [p.has_alpha] = x2 := Option.some.injEq .. ▸ hx2
  obtain rfl : [p.is_last] = x3 := Option.some.injEq .. ▸ hx3
  obtain ⟨psize, palpha, plast, pframe, penc, plg, pl16, pres, pflags, pgab, plf,
    phf, phar, pepf, pnum, pgs, pext⟩ := p
  simp only at hvalid hfr0 hfr1 hc0 hnc0 htoc hprog hnl hne hx4 hx5 hx6 hx7 hx8
  simp only [ReadPassHeader, List.append_assoc, List.cons_append, List.nil_append,
    List.singleton_append, readU64_writeU64, obind_some, readBool_cons]
  have hframe :
      ∀ s2 : List Bool,
        (if plast = true then ReadFrameInfo (x4 ++ s2) else some (frameDefault, x4 ++ s2))
          = some (pframe, s2) ∨
        (x4 = [] ∧ pframe = frameDefault ∧ plast = false) := by
    intro s2
    by_cases hl : plast
    · rw [if_pos (by simp [hl])] at hx4 ⊢
      exact Or.inl (ReadFrameInfo_WriteFrameInfo _ _ _ (hfr1 (by simpa using hl)) hx4)
    · have hlf : plast = false := by simpa using hl
      rw [if_neg (by simp [hlf])] at hx4
      obtain rfl : [] = x4 := Option.some.injEq .. ▸ hx4
      exact Or.inr ⟨rfl, hfr0 hlf, hlf⟩
  have henc : penc = 0 ∨ penc = 1 ∨ penc = 2 := by
    simp only [imageEncodingValid, decide_eq_true_eq] at hvalid
    omega
  rcases hframe (x5 ++ (x6 ++ (x7 ++ (x8 ++ (writeU64 pext ++
      (cbits ++ (payload ++ rest))))))) with hfr | ⟨rfl, rfl, hlf⟩ <;>
  [skip; simp only [hlf, Bool.false_eq_true, if_false, List.nil_append]] <;>
  · first
    | rw [hfr]
    | skip
    simp only [obind_some]
    rw [readEnum_writeU32 _ _ _ _ _ (by simp [kU32Direct3Plus4]) hvalid hx5]
    simp only [obind_some]
    rcases henc with rfl | rfl | rfl
    · rw [if_pos (by decide)] at hx6 ⊢
      obtain ⟨hgab, hepf1, hepf0⟩ := hc0 (by decide)
      rw [ReadPassCond0_WritePassCond0 _ _ _ hgab hepf1 hepf0 hx6]
      simp only [obind_some]
      rw [if_pos (by decide)] at hx7 ⊢
      have hlen : pgs.length = pnum := htoc (by decide)
      simp only [WritePassTOC] at hx7
      rw [← hlen, ReadPassTOC_WritePassTOC pres pgs x7 _ hx7]
      simp only [obind_some]
      rw [if_neg (by decide)] at hx8 ⊢
      obtain rfl : [] = x8 := Option.some.injEq .. ▸ hx8
      obtain ⟨hlg, hl16⟩ := hnl (by decide)
      simp only [List.nil_append, obind_some]
      rw [readExtensions_with_payload pext k cbits payload rest hne hc hp]
      simp [hlg, hl16, hlen]
    · rw [if_neg (by decide)] at hx6 ⊢
      simp only [obind_some]
      obtain rfl : [] = x6 := Option.some.injEq .. ▸ hx6
      obtain ⟨hfl, hgb, hplf, hphf, hhar, hepf⟩ := hnc0 (by decide)
      rw [if_neg (by decide)] at hx7 ⊢
      simp only [obind_some]
      obtain rfl : [] = x7 := Option.some.injEq .. ▸ hx7
      obtain ⟨hres, hgs⟩ := hprog (by decide)
      rw [if_neg (by decide)] at hx8 ⊢
      simp only [obind_some]
      obtain rfl : [] = x8 := Option.some.injEq .. ▸ hx8
      obtain ⟨hlg, hl16⟩ := hnl (by decide)
      simp only [List.nil_append, obind_some]
      rw [readExtensions_with_payload pext k cbits payload rest hne hc hp]
      simp [hfl, hgb, hplf, hphf, hhar, hepf, hres, hgs, hlg, hl16, kGaborish750]
    · rw [if_neg (by decide)] at hx6 ⊢
      simp only [obind_some]
      obtain rfl : [] = x6 := Option.some.injEq .. ▸ hx6
      obtain ⟨hfl, hgb, hplf, hphf, hhar, hepf⟩ := hnc0 (by decide)
      simp only [List.nil_append]
      rw [if_pos (by decide)] at hx7 ⊢
      have hlen : pgs.length = pnum := htoc (by decide)
      simp only [WritePassTOC] at hx7
      rw [← hlen, ReadPassTOC_WritePassTOC pres pgs x7 _ hx7]
      simp only [obind_some]
      rw [if_pos (by decide)] at hx8 ⊢
      obtain rfl : [plg, pl16] = x8 := Option.some.injEq .. ▸ hx8
      simp only [List.cons_append, List.nil_append, readBool_cons, obind_some]
      rw [readExtensions_with_payload pext k cbits payload rest hne hc hp]
      simp [hfl, hgb, hplf, hphf, hhar, hepf, hlen, kGaborish750]

/-- The fields of `FileHeader::VisitFields` preceding `BeginExtensions`. -/
def WriteFilePrefix (f : FileHeader) : Option (List Bool) :=
  if f.signature = kSignature then
    wapp (writeU32 (.raw 32) f.signature)
    (wapp (writeU32 distr0x200D0B09 f.xsize_minus_1)
    (wapp (writeU32 distr0x200D0B09 f.ysize_minus_1)
    (wapp (WriteMetadata f.metadata)
    (wapp (WritePreview f.preview)
          (WriteAnimation f.animation)))))
  else none

theorem extSkipFile (f : FileHeader) (k : Nat)
    (preBits cbits payload rest : List Bool)
    (hwf : wfFile f) (hne : f.extensions ≠ 0)
    (hpre : WriteFilePrefix f = some preBits)
    (hc : writeU32 kExtensionBitsDistr k = some cbits)
    (hp : payload.length = k) :
    ReadFileHeader
        (preBits ++ (writeU64 f.extensions ++ (cbits ++ (payload ++ rest)))) =
      some (f, rest) := by
  obtain ⟨hmeta, hprev, hanim⟩ := hwf
  simp only [WriteFilePrefix] at hpre
  by_cases hs : f.signature = kSignature
  · rw [if_pos hs] at hpre
    obtain ⟨x1, y1, hx1, hy1, rfl⟩ := wapp_eq_some _ _ _ hpre
    obtain ⟨x2, y2, hx2, hy2, rfl⟩ := wapp_eq_some _ _ _ hy1
    obtain ⟨x3, y3, hx3, hy3, rfl⟩ := wapp_eq_some _ _ _ hy2
    obtain ⟨x4, y4, hx4, hy4, rfl⟩ := wapp_eq_some _ _ _ hy3
    obtain ⟨x5, x6, hx5, hx6, rfl⟩ := wapp_eq_some _ _ _ hy4
    simp only [ReadFileHeader, List.append_assoc]
    rw [readU32_writeU32 _ _ _ _ (by trivial) hx1]
    simp only [obind_some]
    rw [if_pos hs]
    rw [readU32_writeU32 _ _ _ _ (by simp [distr0x200D0B09]) hx2]
    simp only [obind_some]
    rw [readU32_writeU32 _ _ _ _ (by simp [distr0x200D0B09]) hx3]
    simp only [obind_some]
    rw [ReadMetadata_WriteMetadata _ _ _ hmeta hx4]
    simp only [obind_some]
    rw [ReadPreview_WritePreview _ _ _ hprev hx5]
    simp only [obind_some]
    rw [ReadAnimation_WriteAnimation _ _ _ hanim hx6]
    simp only [obind_some]
    rw [readExtensions_with_payload f.extensions k cbits payload rest hne hc hp]
    simp only [obind_some]
  · rw [if_neg hs] at hpre
    exact absurd hpre (by simp)

--------------------------------------------------------------------------------
-- Decidability of the well-formedness predicates (used to discharge
-- hypotheses on concrete header instances).

instance : DecidablePred wfTile := fun t => by
  unfold wfTile
  infer_instance

instance : DecidablePred wfGroup := fun g => by
  unfold wfGroup
  infer_instance

instance : DecidablePred wfFrame := fun f => by
  unfold wfFrame
  infer_instance

instance : DecidablePred wfEpf := fun e => by
  unfold wfEpf
  infer_instance

instance : DecidablePred wfPreview := fun p => by
  unfold wfPreview
  infer_instance

instance : DecidablePred wfAnimation := fun a => by
  unfold wfAnimation
  infer_instance

instance : DecidablePred wfMeta := fun m => by
  unfold wfMeta
  infer_instance

instance : DecidablePred wfPass := fun p => by
  unfold wfPass
  infer_instance

instance : DecidablePred wfFile := fun f => by
  unfold wfFile
  infer_instance

--------------------------------------------------------------------------------
-- Claim theorems.

/-- C1 (counterexample to the claim as stated): a `TileHeader` whose fields
are all representable by their distribution tables but whose stored
`all_default` flag is false while every field is at its default.  The encoder
recomputes the flag by value, elides the header to a single set bit, and
decoding that bit yields the default instance, whose `all_default` flag is
true - so `Decode(Encode(h))` differs from `h` in the `all_default` field. -/
theorem c1_all_default_flag_cex :
    (WriteTileHeader { tileDefault with all_default := false }).bind ReadTileHeader =
      some (tileDefault, []) ∧
    tileDefault ≠ { tileDefault with all_default := false } := by
  constructor <;> decide

/-- C1 (amended): for every header type, decoding the bits produced by
encoding `h` (with the same non-serialized decode context) yields `h` field
by field, including nested headers, provided `h` is well formed: its fields
encode successfully, its stored all-default flags agree with the by-value
computation, fields hidden behind false guards are at their defaults, enum
fields hold declared values, and the group-size table length matches the
non-serialized group count. -/
theorem c1_headers_roundtrip :
    (∀ (t : TileHeader) (bits rest : List Bool), wfTile t →
      WriteTileHeader t = some bits → ReadTileHeader (bits ++ rest) = some (t, rest)) ∧
    (∀ (g : GroupHeader) (bits rest : List Bool), wfGroup g →
      WriteGroupHeader g = some bits →
      ReadGroupHeader g.nonserialized_have_alpha (bits ++ rest) = some (g, rest)) ∧
    (∀ (p : PassHeader) (bits rest : List Bool), wfPass p →
      WritePassHeader p = some bits →
      ReadPassHeader p.nonserialized_num_groups (bits ++ rest) = some (p, rest)) ∧
    (∀ (f : FileHeader) (bits rest : List Bool), wfFile f →
      WriteFileHeader f = some bits → ReadFileHeader (bits ++ rest) = some (f, rest)) :=
  ⟨fun t bits rest hwf hw => ReadTileHeader_WriteTileHeader t bits rest hwf hw,
   fun g bits rest hwf hw => ReadGroupHeader_WriteGroupHeader g bits rest hwf hw,
   fun p bits rest hwf hw => ReadPassHeader_WritePassHeader p bits rest hwf hw,
   fun f bits rest hwf hw => ReadFileHeader_WriteFileHeader f bits rest hwf hw⟩

/-- C1 witness: the round trip at the four freshly constructed default
headers, with empty trailing stream. -/
theorem c1_headers_roundtrip_witness :
    (WriteTileHeader tileDefault).bind (fun bits => ReadTileHeader (bits ++ [])) =
      some (tileDefault, []) ∧
    (WriteGroupHeader groupDefault).bind
        (fun bits => ReadGroupHeader false (bits ++ [])) = some (groupDefault, []) ∧
    (WritePassHeader passDefault).bind (fun bits => ReadPassHeader 0 (bits ++ [])) =
      some (passDefault, []) ∧
    (WriteFileHeader fileDefault).bind (fun bits => ReadFileHeader (bits ++ [])) =
      some (fileDefault, []) := by
  refine ⟨?_, ?_, ?_, ?_⟩
  · rcases hw : WriteTileHeader tileDefault with _ | bits
    · exact absurd hw (by decide)
    · simp only [obind_some]
      exact c1_headers_roundtrip.1 tileDefault bits [] (by decide) hw
  · rcases hw : WriteGroupHeader groupDefault with _ | bits
    · exact absurd hw (by decide)
    · simp only [obind_some]
      exact c1_headers_roundtrip.2.1 groupDefault bits [] (by decide) hw
  · rcases hw : WritePassHeader passDefault with _ | bits
    · exact absurd hw (by decide)
    · simp only [obind_some]
      exact c1_headers_roundtrip.2.2.1 passDefault bits [] (by decide) hw
  · rcases hw : WriteFileHeader fileDefault with _ | bits
    · exact absurd hw (by decide)
    · simp only [obind_some]
      exact c1_headers_roundtrip.2.2.2 fileDefault bits [] (by decide) hw

/-- C2: for every stream whose first 32 visited signature bits decode to a
value other than 0x0A4D4CD7, `ReadFileHeader` fails; the result is `none` for
every possible continuation `rest`, so no field other than the signature is
read or affects the outcome. -/
theorem c2_signature_mismatch (s : Nat) (rest : List Bool)
    (h32 : s < 2 ^ 32) (hs : s ≠ kSignature) :
    ReadFileHeader (writeBits 32 s ++ rest) = none := by
  have h : readU32 (.raw 32) (writeBits 32 s ++ rest) = some (s, rest) := by
    simp only [readU32]
    rw [readBits_writeBits, Nat.mod_eq_of_lt h32]
  simp only [ReadFileHeader, h, obind_some]
  rw [if_neg hs]

/-- C2 witness: the all-zero signature fails regardless of what follows. -/
theorem c2_signature_mismatch_witness :
    ReadFileHeader (writeBits 32 0 ++ [true, false]) = none :=
  c2_signature_mismatch 0 [true, false] (by norm_num) (by decide)

/-- C3 (counterexample to the claim as stated): `PassHeader` and `FileHeader`
have no all-default fast path (`PassHeader::VisitFields` and
`FileHeader::VisitFields` never call `AllDefault`), so their freshly
constructed default instances do not encode to 1 bit. -/
theorem c3_pass_file_not_one_bit :
    (WritePassHeader passDefault).map List.length ≠ some 1 ∧
    (WriteFileHeader fileDefault).map List.length ≠ some 1 := by
  constructor <;> decide

/-- C3 (amended): of the four header types, `TileHeader` and `GroupHeader`
have the all-default fast path, and their freshly constructed default
instances encode to exactly 1 bit; `PassHeader` and `FileHeader` have no such
path (in this model their default encodings are 44 and 66 bits). -/
theorem c3_default_one_bit :
    WriteTileHeader tileDefault = some [true] ∧
    WriteGroupHeader groupDefault = some [true] ∧
    (WritePassHeader passDefault).map List.length = some 44 ∧
    (WriteFileHeader fileDefault).map List.length = some 66 := by
  refine ⟨by decide, by decide, by decide, by decide⟩

/-- C4 (counterexample to the claim as stated): a single set bit decodes a
whole `TileHeader`, but `PassHeader` (even after the signature,
`FileHeader`) has no leading all-default bit: the one-bit streams that the
claimed layout would decode as all-default instances fail instead. -/
theorem c4_no_flag_in_pass_file :
    ReadTileHeader [true] = some (tileDefault, []) ∧
    ReadPassHeader 0 [true] = none ∧
    ReadFileHeader (writeBits 32 kSignature ++ [true]) = none := by
  refine ⟨by decide, by decide, by decide⟩

/-- C4 (amended): of the four header types only `TileHeader` and
`GroupHeader` carry the all-default flag; for those, the first bit of every
encoding is the flag computed by value from the fields (not the stored
flag), and a set first bit short-circuits decoding to the all-defaults
instance before any other field is visited. -/
theorem c4_all_default_bit_first :
    (∀ (t : TileHeader) (bits : List Bool), WriteTileHeader t = some bits →
      bits.head? = some (tileAllDefaultQ t)) ∧
    (∀ rest : List Bool, ReadTileHeader (true :: rest) = some (tileDefault, rest)) ∧
    (∀ (g : GroupHeader) (bits : List Bool), WriteGroupHeader g = some bits →
      bits.head? = some (groupAllDefaultQ g)) ∧
    (∀ (ha : Bool) (rest : List Bool), ReadGroupHeader ha (true :: rest) =
      some ({ groupDefault with nonserialized_have_alpha := ha }, rest)) := by
  refine ⟨?_, ?_, ?_, ?_⟩
  · intro t bits hw
    simp only [WriteTileHeader] at hw
    by_cases hq : tileAllDefaultQ t
    · rw [if_pos hq] at hw
      obtain rfl : [true] = bits := Option.some.injEq .. ▸ hw
      simp [hq]
    · rw [if_neg hq] at hw
      rcases hb : wapp (WriteTileBody t) (writeExtensions t.extensions) with _ | bs
      · rw [hb] at hw; exact absurd hw (by simp)
      · rw [hb] at hw
        obtain rfl : false :: bs = bits := Option.some.injEq .. ▸ hw
        simp [hq]
  · intro rest
    simp [ReadTileHeader, readBool_cons, obind_some]
  · intro g bits hw
    simp only [WriteGroupHeader] at hw
    by_cases hq : groupAllDefaultQ g
    · rw [if_pos hq] at hw
      obtain rfl : [true] = bits := Option.some.injEq .. ▸ hw
      simp [hq]
    · rw [if_neg hq] at hw
      rcases hb : wapp (WriteGroupBody g) (writeExtensions g.extensions) with _ | bs
      · rw [hb] at hw; exact absurd hw (by simp)
      · rw [hb] at hw
        obtain rfl : false :: bs = bits := Option.some.injEq .. ▸ hw
        simp [hq]
  · intro ha rest
    simp [ReadGroupHeader, readBool_cons, obind_some]

/-- C4 witness: the first encoded bit of each default instance is its
computed all-default flag. -/
theorem c4_all_default_bit_first_witness :
    ([true] : List Bool).head? = some (tileAllDefaultQ tileDefault) ∧
    ([true] : List Bool).head? = some (groupAllDefaultQ groupDefault) ∧
    ReadTileHeader (true :: []) = some (tileDefault, []) :=
  ⟨c4_all_default_bit_first.1 tileDefault [true] (by decide),
   c4_all_default_bit_first.2.2.1 groupDefault [true] (by decide),
   c4_all_default_bit_first.2.1 []⟩

/-- C5: a header whose extension region declares a payload of `k` bits is
fully skippable by this decoder (which recognizes no extension fields): for
each of the four header types, decoding the prefix fields, the `extensions`
u64, the declared count `k`, then any `k` payload bits, succeeds, decodes
the prefix fields exactly, and leaves the cursor exactly after the payload -
never fewer, never more bits consumed.  Moreover a reader that consumed more
extension bits than declared fails hard (`endExtensionsRead`). -/
theorem c5_extension_skip :
    (∀ (t : TileHeader) (k : Nat) (bodyBits cbits payload rest : List Bool),
      wfTile t → t.extensions ≠ 0 → WriteTileBody t = some bodyBits →
      writeU32 kExtensionBitsDistr k = some cbits → payload.length = k →
      ReadTileHeader
          ((false :: bodyBits) ++ (writeU64 t.extensions ++ (cbits ++ (payload ++ rest)))) =
        some (t, rest)) ∧
    (∀ (g : GroupHeader) (k : Nat) (bodyBits cbits payload rest : List Bool),
      wfGroup g → g.extensions ≠ 0 → WriteGroupBody g = some bodyBits →
      writeU32 kExtensionBitsDistr k = some cbits → payload.length = k →
      ReadGroupHeader g.nonserialized_have_alpha
          ((false :: bodyBits) ++ (writeU64 g.extensions ++ (cbits ++ (payload ++ rest)))) =
        some (g, rest)) ∧
    (∀ (p : PassHeader) (k : Nat) (preBits cbits payload rest : List Bool),
      wfPass p → p.extensions ≠ 0 → WritePassPrefix p = some preBits →
      writeU32 kExtensionBitsDistr k = some cbits → payload.length = k →
      ReadPassHeader p.nonserialized_num_groups
          (preBits ++ (writeU64 p.extensions ++ (cbits ++ (payload ++ rest)))) =
        some (p, rest)) ∧
    (∀ (f : FileHeader) (k : Nat) (preBits cbits payload rest : List Bool),
      wfFile f → f.extensions ≠ 0 → WriteFilePrefix f = some preBits →
      writeU32 kExtensionBitsDistr k = some cbits → payload.length = k →
      ReadFileHeader
          (preBits ++ (writeU64 f.extensions ++ (cbits ++ (payload ++ rest)))) =
        some (f, rest)) ∧
    (∀ (declared consumed : Nat) (s : List Bool), declared < consumed →
      endExtensionsRead declared consumed s = none) :=
  ⟨fun t k b c p r hwf hne hb hc hp => extSkipTile t k b c p r hwf hne hb hc hp,
   fun g k b c p r hwf hne hb hc hp => extSkipGroup g k b c p r hwf hne hb hc hp,
   fun p k b c pl r hwf hne hb hc hp => extSkipPass p k b c pl r hwf hne hb hc hp,
   fun f k b c p r hwf hne hb hc hp => extSkipFile f k b c p r hwf hne hb hc hp,
   fun d c s h => by simp [endExtensionsRead, h]⟩

/-- C5 witness: a tile header with `extensions = 1` and a 3-bit extension
payload; the decoder lands exactly after the payload. -/
theorem c5_extension_skip_witness :
    ReadTileHeader
        ((false :: [false]) ++ (writeU64 1 ++
          ([true, false, true, true, false, false, false, false, false, false] ++
            ([true, false, true] ++ [])))) =
      some ({ tileDefault with all_default := false, extensions := 1 }, []) :=
  c5_extension_skip.1 { tileDefault with all_default := false, extensions := 1 } 3
    [false] [true, false, true, true, false, false, false, false, false, false]
    [true, false, true] [] (by decide) (by decide) (by decide) (by decide) (by decide)

/-- C6: the size/validity oracle agrees exactly with the writers: for every
header instance, `CanEncode` fails precisely when the writer fails (some
field's value is representable by no alternative of its distribution table),
and when it succeeds its `total_bits` equals the exact bit length the writer
produces.  A `PassHeader` whose encoding enum holds the unrepresentable
value 99 is rejected by `CanEncode`. -/
theorem c6_canEncode_agreement :
    (∀ t : TileHeader, (CanEncodeTile t).map Prod.snd =
      (WriteTileHeader t).map List.length) ∧
    (∀ g : GroupHeader, (CanEncodeGroup g).map Prod.snd =
      (WriteGroupHeader g).map List.length) ∧
    (∀ p : PassHeader, (CanEncodePass p).map Prod.snd =
      (WritePassHeader p).map List.length) ∧
    (∀ f : FileHeader, (CanEncodeFile f).map Prod.snd =
      (WriteFileHeader f).map List.length) ∧
    CanEncodePass { passDefault with encoding := 99 } = none := by
  refine ⟨?_, ?_, ?_, ?_, by decide⟩
  · intro t
    have h := sizeTile_agree t
    rcases hw : WriteTileHeader t with _ | bits <;> rw [hw] at h <;>
      simp [CanEncodeTile, h, hw]
  · intro g
    have h := sizeGroup_agree g
    rcases hw : WriteGroupHeader g with _ | bits <;> rw [hw] at h <;>
      simp [CanEncodeGroup, h, hw]
  · intro p
    have h := sizePass_agree p
    rcases hw : WritePassHeader p with _ | bits <;> rw [hw] at h <;>
      simp [CanEncodePass, h, hw]
  · intro f
    have h := sizeFile_agree f
    rcases hw : WriteFileHeader f with _ | bits <;> rw [hw] at h <;>
      simp [CanEncodeFile, h, hw]

/-- C7: width and height are stored biased by one: `xsize()` and `ysize()`
add 1 to every stored value, so no header represents a zero-sized image, and
the all-zero geometry fields round-trip to logical width 1 and height 1. -/
theorem c7_geometry_bias :
    (∀ f : FileHeader, f.xsize = f.xsize_minus_1 + 1 ∧ f.ysize = f.ysize_minus_1 + 1 ∧
      1 ≤ f.xsize ∧ 1 ≤ f.ysize) ∧
    fileDefault.xsize_minus_1 = 0 ∧ fileDefault.ysize_minus_1 = 0 ∧
    (WriteFileHeader fileDefault).bind ReadFileHeader = some (fileDefault, []) ∧
    fileDefault.xsize = 1 ∧ fileDefault.ysize = 1 := by
  refine ⟨fun f => ⟨rfl, rfl, by simp [FileHeader.xsize], by simp [FileHeader.ysize]⟩,
    rfl, rfl, ?_, rfl, rfl⟩
  rcases hw : WriteFileHeader fileDefault with _ | bits
  · exact absurd hw (by decide)
  · simp only [obind_some]
    have h := ReadFileHeader_WriteFileHeader fileDefault bits [] (by decide) hw
    simpa using h

/-- C8: the PNG adapter's base16 metadata coder round-trips: for the EXIF
and IPTC kinds, encoding any non-empty byte blob as a
"Raw profile type kind" text chunk and decoding it with the adapter's
reader reproduces exactly the original bytes with the same kind; and an
eXIf-chunk payload of 128 bytes stored into fresh metadata yields
`metadata.exif.size() == 128`. -/
theorem c8_base16_roundtrip :
    (∀ (ty bytes : List Nat), (ty = asciiExif ∨ ty = asciiIptc) → bytes ≠ [] →
      bytes.length < 10 ^ 8 → (∀ b ∈ bytes, b < 256) →
      DecodeBase16 (mdKey ty) (EncodeBase16 ty bytes) = some (ty, bytes)) ∧
    (∀ payload : List Nat, payload.length = 128 →
      (DecodeEXIF payload metaDefault).exif.length = 128) :=
  ⟨DecodeBase16_EncodeBase16,
   fun p hp => by simp [DecodeEXIF, metaDefault, hp]⟩

set_option maxRecDepth 10000 in
/-- C8 witness: a 128-byte EXIF blob and a 40-byte IPTC blob decode back to
exactly 128 and 40 bytes. -/
theorem c8_base16_roundtrip_witness :
    (DecodeBase16 (mdKey asciiExif) (EncodeBase16 asciiExif (List.range 128))).map
        (fun r => r.2.length) = some 128 ∧
    (DecodeBase16 (mdKey asciiIptc) (EncodeBase16 asciiIptc (List.range 40))).map
        (fun r => r.2.length) = some 40 ∧
    (DecodeEXIF (List.range 128) metaDefault).exif.length = 128 := by
  refine ⟨?_, ?_, c8_base16_roundtrip.2 (List.range 128) (by simp)⟩
  · rw [c8_base16_roundtrip.1 asciiExif (List.range 128) (Or.inl rfl) (by decide)
      (by decide) (by decide)]
    simp
  · rw [c8_base16_roundtrip.1 asciiIptc (List.range 40) (Or.inr rfl) (by decide)
      (by decide) (by decide)]
    simp

/-- C9: `DecodeEXIF` keeps an EXIF blob of maximal payload size: an incoming
eXIf payload replaces the stored EXIF exactly when its size is at least the
stored size and leaves the metadata unchanged otherwise; over any sequence
of eXIf chunks the final blob length is the maximum of all payload lengths
and the stored blob is one of the payloads (or the original). -/
theorem c9_exif_keep_larger :
    (∀ (payload : List Nat) (m : Metadata),
      DecodeEXIF payload m =
        if m.exif.length ≤ payload.length then { m with exif := payload } else m) ∧
    (∀ (chunks : List (List Nat)) (m : Metadata),
      ((chunks.foldl (fun acc p => DecodeEXIF p acc) m).exif.length =
        chunks.foldl (fun acc p => max acc p.length) m.exif.length) ∧
      ((chunks.foldl (fun acc p => DecodeEXIF p acc) m).exif ∈ chunks ∨
        (chunks.foldl (fun acc p => DecodeEXIF p acc) m).exif = m.exif)) := by
  constructor
  · intro payload m
    simp only [DecodeEXIF]
    by_cases h : m.exif.length > payload.length
    · rw [if_pos h, if_neg (by omega)]
    · rw [if_neg h, if_pos (by omega)]
  · intro chunks
    induction chunks with
    | nil => exact fun m => ⟨rfl, Or.inr rfl⟩
    | cons c cs ih =>
      intro m
      have hstep : (DecodeEXIF c m).exif.length = max m.exif.length c.length := by
        simp only [DecodeEXIF]
        by_cases h : m.exif.length > c.length
        · rw [if_pos h]
          omega
        · rw [if_neg h]
          simp only
          omega
      obtain ⟨ihl, ihm⟩ := ih (DecodeEXIF c m)
      constructor
      · simp only [List.foldl_cons, ihl, hstep]
      · simp only [List.foldl_cons]
        rcases ihm with h | h
        · exact Or.inl (List.mem_cons_of_mem c h)
        · rw [h]
          simp only [DecodeEXIF]
          by_cases hc : m.exif.length > c.length
          · rw [if_pos hc]
            exact Or.inr rfl
          · rw [if_neg hc]
            exact Or.inl (by simp)

/-- C10: the base16 coder stores each byte low nibble first - the encoding
of byte `b` is the lowercase hex digit of `b % 16` followed by that of
`b / 16`, and the decoder reconstructs `nibble1 * 16 + nibble0`; the nibble
decoder accepts exactly the characters 0-9 and lowercase a-f, so uppercase
hex digits (e.g. 'A' = 65) are a decode failure. -/
theorem c10_nibble_coding :
    (∀ b : Nat, b < 256 →
      encodeBytePair b = [EncodeNibble (b % 16), EncodeNibble (b / 16)] ∧
      decodeBytePair (EncodeNibble (b % 16)) (EncodeNibble (b / 16)) = some b) ∧
    (∀ c : Nat, (DecodeNibble c).isSome = true ↔
      (48 ≤ c ∧ c ≤ 57) ∨ (97 ≤ c ∧ c ≤ 102)) ∧
    DecodeNibble 65 = none := by
  refine ⟨fun b hb => ⟨rfl, decodeBytePair_encodeBytePair b hb⟩, ?_, by decide⟩
  intro c
  unfold DecodeNibble
  split_ifs with h1 h2 <;> simp <;> omega

/-- C10 witness: byte 0xAB encodes as 'b' then 'a' and decodes back. -/
theorem c10_nibble_coding_witness :
    decodeBytePair (EncodeNibble (171 % 16)) (EncodeNibble (171 / 16)) = some 171 :=
  (c10_nibble_coding.1 171 (by decide)).2
